import Mathlib

/-
Verification development for the Vemini frame/context processing pipeline.

The definitions below are a shallow embedding, translated from the
repository sources:
  - src/src/utils/GeminiProcessor.ts  (response parsing, scene memory,
    context window)
  - src/src/backend/server.ts         (FrameQueue: bounded request queue,
    sequential worker loop)
  - src/unnamed/part_013              (VideoFrameExtractor: frame-rate
    limiter)

Strings are modelled as lists of characters, JavaScript numbers as
rationals (every numeric literal JSON.parse can accept denotes an exact
rational; IEEE rounding and the non-finite values Infinity/NaN are outside
the rational model, NaN being represented by the `none` arm of
`Option Rat` where the source can produce it).  Fallible JavaScript code
(field access on null, which throws a TypeError) is modelled with
`Except`.
-/

set_option maxRecDepth 4096

attribute [local semireducible] Rat.mul Rat.add Rat.sub Rat.inv Rat.ofScientific

/-- Character-list strings: the embedding of JavaScript strings. -/
abbrev Str := List Char

/-- Coerce a Lean string literal to the character-list model. -/
def strL (s : String) : Str := s.data

/- ## Regex-level character classes used by extractAndCleanJson -/

/-- The characters matched by the regex class `\s` (ASCII part) and removed
by `String.prototype.trim`; the rare non-ASCII space code points are not
used by any input considered here. -/
def isWSChar (c : Char) : Bool :=
  c = ' ' || c = '\t' || c = '\n' || c = '\r' || c = '\x0b' || c = '\x0c'

/-- Characters allowed after a backslash by the regex
`/\\([^"\\\/bfnrtu])/` (the complement of its class). -/
def goodEscapeChar (c : Char) : Bool :=
  c = '"' || c = '\\' || c = '/' || c = 'b' || c = 'f' ||
  c = 'n' || c = 'r' || c = 't' || c = 'u'

/- ## Fence extraction: text.match(/```(?:json)?\n([\s\S]*?)\n```/) -/

/-- Earliest occurrence of `pat` in the input; returns the characters
before the match and the characters after it (lazy matching of
`[\s\S]*?` up to the closing delimiter). -/
def splitFirst (pat : Str) : Str → Option (Str × Str)
  | [] => if pat.isEmpty then some ([], []) else none
  | c :: rest =>
    if pat.isPrefixOf (c :: rest) then some ([], (c :: rest).drop pat.length)
    else
      match splitFirst pat rest with
      | some (pre, post) => some (c :: pre, post)
      | none => none

/-- Attempt the fence regex anchored at the start of `s`: the opening
delimiter (with the optional `json` tag tried first, as the regex does),
then the lazily matched body, then the closing delimiter. -/
def tryFenceAt (s : Str) : Option Str :=
  if (strL "```json\n").isPrefixOf s then
    (splitFirst (strL "\n```") (s.drop 8)).map (fun p => p.1)
  else if (strL "```\n").isPrefixOf s then
    (splitFirst (strL "\n```") (s.drop 4)).map (fun p => p.1)
  else none

/-- The first (leftmost) match of the fence regex, returning capture
group 1, as `String.prototype.match` with a non-global regex does. -/
def findFence : Str → Option Str
  | [] => none
  | c :: rest =>
    match tryFenceAt (c :: rest) with
    | some body => some body
    | none => findFence rest

/- ## The chained replace calls of extractAndCleanJson -/

/-- jsonStr.trim() -/
def trimBoth (s : Str) : Str :=
  (((s.dropWhile isWSChar).reverse).dropWhile isWSChar).reverse

/-- .replace(/\\([^"\\\/bfnrtu])/g, dollar-1): drop every backslash that
precedes a character outside the allowed escape class; scanning resumes
after each match, and after the backslash on a failed match. -/
def stripBadEscapes : Str → Str
  | [] => []
  | ['\\'] => ['\\']
  | '\\' :: c :: rest2 =>
    if goodEscapeChar c then '\\' :: stripBadEscapes (c :: rest2)
    else c :: stripBadEscapes rest2
  | c :: rest => c :: stripBadEscapes rest

/-- Helper for the `X\s*Y` regexes: skip `\s*` greedily, then require a
character satisfying `p`, returning it and the rest of the input. -/
def wsThenSat (p : Char → Bool) : Str → Option (Char × Str)
  | [] => none
  | c :: rest =>
    if p c then some (c, rest)
    else if isWSChar c then wsThenSat p rest else none

theorem wsThenSat_length {p : Char → Bool} :
    ∀ {s : Str} {b : Char} {r : Str}, wsThenSat p s = some (b, r) →
      r.length < s.length := by
  intro s
  induction s with
  | nil => intro b r h; simp [wsThenSat] at h
  | cons c rest ih =>
    intro b r h
    simp only [wsThenSat] at h
    by_cases hp : p c
    · simp [hp] at h
      simp [h.2.symm, List.length_cons, Nat.lt_succ_self]
    · by_cases hw : isWSChar c
      · simp [hp, hw] at h
        exact Nat.lt_succ_of_lt (ih h)
      · simp [hp, hw] at h

/-- Fuelled worker for `stripTrailingCommas`; each step consumes at least
one input character, so fuel equal to the input length never runs out. -/
def stripTrailingCommasF : Nat → Str → Str
  | _, [] => []
  | 0, s => s
  | fuel + 1, c :: rest =>
    if c = ',' then
      match wsThenSat (fun x => x = '}' || x = ']') rest with
      | some (b, r) => b :: stripTrailingCommasF fuel r
      | none => ',' :: stripTrailingCommasF fuel rest
    else c :: stripTrailingCommasF fuel rest

/-- .replace(/,\s*([}\]])/g, dollar-1): a comma followed by optional
whitespace and a closing bracket is replaced by that bracket. -/
def stripTrailingCommas (s : Str) : Str := stripTrailingCommasF s.length s

/-- Fuelled worker for `collapseEmptyObj`. -/
def collapseEmptyObjF : Nat → Str → Str
  | _, [] => []
  | 0, s => s
  | fuel + 1, c :: rest =>
    if c = '{' || c = ',' then
      match wsThenSat (fun x => x = '}') rest with
      | some (_, r) => '}' :: collapseEmptyObjF fuel r
      | none => c :: collapseEmptyObjF fuel rest
    else c :: collapseEmptyObjF fuel rest

/-- .replace(/([{,])\s*}/g, a closing brace): an opening brace or comma
followed by optional whitespace and a closing brace collapses to the
closing brace. -/
def collapseEmptyObj (s : Str) : Str := collapseEmptyObjF s.length s

/-- Fuelled worker for `collapseEmptyArr`. -/
def collapseEmptyArrF : Nat → Str → Str
  | _, [] => []
  | 0, s => s
  | fuel + 1, c :: rest =>
    if c = '[' then
      match wsThenSat (fun x => x = ']') rest with
      | some (_, r) => '[' :: ']' :: collapseEmptyArrF fuel r
      | none => '[' :: collapseEmptyArrF fuel rest
    else c :: collapseEmptyArrF fuel rest

/-- .replace(/\[\s*]/g, an empty array): an opening bracket followed by
optional whitespace and a closing bracket collapses to the two-character
empty array. -/
def collapseEmptyArr (s : Str) : Str := collapseEmptyArrF s.length s

/-- Fuelled worker for `replaceUndefined`. -/
def replaceUndefinedF : Nat → Str → Str
  | _, [] => []
  | 0, s => s
  | fuel + 1, c :: rest =>
    if (strL "undefined").isPrefixOf (c :: rest) then
      strL "null" ++ replaceUndefinedF fuel (rest.drop 8)
    else c :: replaceUndefinedF fuel rest

/-- .replace(/undefined/g, the word null): every occurrence of the literal
word `undefined`, left to right and non-overlapping. -/
def replaceUndefined (s : Str) : Str := replaceUndefinedF s.length s

/-- GeminiProcessor.extractAndCleanJson: pull the body out of a markdown
code fence when present, trim, pad unmatched outer braces, then apply the
chained regex replaces in source order.  The try/catch in the source can
never fire (string operations do not throw), so the function is total. -/
def extractAndCleanJson (text : Str) : Str :=
  let jsonStr0 :=
    match findFence text with
    | some body => body
    | none => text
  let j1 := trimBoth jsonStr0
  let j2 := if j1.head? = some '{' then j1 else '{' :: j1
  let j3 := if j2.getLast? = some '}' then j2 else j2 ++ ['}']
  let j4 := stripBadEscapes j3
  let j5 := stripTrailingCommas j4
  let j6 := collapseEmptyObj j5
  let j7 := collapseEmptyArr j6
  replaceUndefined j7

example : extractAndCleanJson (strL "hello") = strL "\x7bhello\x7d" := by decide
example : extractAndCleanJson (strL "") = strL "\x7d" := by decide
example :
    extractAndCleanJson (strL "```json\nab\n```") = strL "\x7bab\x7d" := by decide

/- ## JSON values and JSON.parse

JSON.parse is the external decoding routine invoked by
parseGeminiResponse.  Numbers are modelled as exact rationals (every JSON
numeric literal denotes a rational); the IEEE rounding performed by a
JavaScript engine is outside this model. -/

/-- The values JSON.parse can produce.  Object fields are kept in source
order; a duplicated key is resolved by `lookupLast` below, matching the
last-assignment-wins behaviour of property definition. -/
inductive JVal where
  | null
  | bool (b : Bool)
  | num (q : ℚ)
  | str (s : Str)
  | arr (elems : List JVal)
  | obj (fields : List (Str × JVal))
  | infin (pos : Bool)

/-- The value of a JavaScript Number() computation: NaN, a signed
Infinity, or a finite value (modelled as an exact rational).  `JVal.infin`
above is the non-finite number JSON.parse itself produces for an
overflowing literal such as 1e999; NaN cannot arise from JSON.parse. -/
inductive NumV where
  | nan
  | inf (pos : Bool)
  | fin (q : ℚ)
deriving DecidableEq

/-- Collapse an exactly computed unsigned decimal magnitude onto the IEEE
double number line at its non-finite boundaries: magnitudes at or beyond
the rounding threshold of the largest double become Infinity, and
magnitudes at or below half the smallest subnormal round to zero.
Rounding between other finite doubles is outside the rational model (no
claim depends on it, but zero-ness and finiteness feed the source's
`Number(x) || 0.5`). -/
def roundJsNum (neg : Bool) (mag : ℚ) : NumV :=
  if ((2 ^ 1024 - 2 ^ 970 : ℕ) : ℚ) ≤ mag then NumV.inf !neg
  else if mag ≤ 1 / ((2 ^ 1075 : ℕ) : ℚ) then NumV.fin 0
  else NumV.fin (if neg then -mag else mag)

/-- Ten to an integer power, computed through natural-number
exponentiation (equal to `(10 : ℚ) ^ e`, but evaluation-friendly for the
large exponents of overflowing literals). -/
def qPow10 : Int → ℚ
  | Int.ofNat n => ((10 ^ n : ℕ) : ℚ)
  | Int.negSucc n => 1 / ((10 ^ (n + 1) : ℕ) : ℚ)

/-- The JSON value of a number literal (NaN is unreachable from the JSON
number grammar). -/
def jnumToJVal : NumV → JVal
  | NumV.fin q => JVal.num q
  | NumV.inf b => JVal.infin b
  | NumV.nan => JVal.num 0

/-- JSON insignificant whitespace (space, tab, line feed, carriage
return). -/
def isJsonWS (c : Char) : Bool :=
  c = ' ' || c = '\t' || c = '\n' || c = '\r'

def skipJsonWS (s : Str) : Str := s.dropWhile isJsonWS

def isDigitCh (c : Char) : Bool := '0' ≤ c && c ≤ '9'

def hexVal (c : Char) : Option Nat :=
  if '0' ≤ c && c ≤ '9' then some (c.toNat - 48)
  else if 'a' ≤ c && c ≤ 'f' then some (c.toNat - 87)
  else if 'A' ≤ c && c ≤ 'F' then some (c.toNat - 55)
  else none

/-- The single-character string escapes of JSON. -/
def escChar (c : Char) : Option Char :=
  if c = '"' then some '"'
  else if c = '\\' then some '\\'
  else if c = '/' then some '/'
  else if c = 'b' then some '\x08'
  else if c = 'f' then some '\x0c'
  else if c = 'n' then some '\n'
  else if c = 'r' then some '\r'
  else if c = 't' then some '\t'
  else none

/-- Parse the body of a JSON string after the opening quote, up to and
including the closing quote.  Raw control characters and invalid escapes
are errors, as in JSON.parse.  A `\u` escape denoting a lone surrogate is
mapped to the null character (such code points are not valid Lean `Char`s;
no input considered by the claims contains one). -/
def parseStringBody : Str → Option (Str × Str)
  | [] => none
  | '"' :: rest => some ([], rest)
  | '\\' :: 'u' :: h1 :: h2 :: h3 :: h4 :: rest2 =>
    match hexVal h1, hexVal h2, hexVal h3, hexVal h4 with
    | some a, some b, some c, some d =>
      (parseStringBody rest2).map
        (fun p => (Char.ofNat (((a * 16 + b) * 16 + c) * 16 + d) :: p.1, p.2))
    | _, _, _, _ => none
  | '\\' :: c :: rest2 =>
    match escChar c with
    | some e => (parseStringBody rest2).map (fun p => (e :: p.1, p.2))
    | none => none
  | c :: rest =>
    if c.toNat < 32 then none
    else (parseStringBody rest).map (fun p => (c :: p.1, p.2))

def digitsToNat (ds : Str) : Nat :=
  ds.foldl (fun n c => n * 10 + (c.toNat - 48)) 0

/-- Optional fraction part: `.` followed by one or more digits, or
nothing. -/
def parseFracPart (r : Str) : Option (ℚ × Str) :=
  match r with
  | '.' :: rest =>
    let ds := rest.takeWhile isDigitCh
    if ds.isEmpty then none
    else some ((digitsToNat ds : ℚ) / (10 : ℚ) ^ ds.length, rest.dropWhile isDigitCh)
  | _ => some (0, r)

/-- Optional exponent part: `e`/`E`, an optional sign, one or more
digits; or nothing (exponent 0). -/
def parseExpPart (r : Str) : Option (Int × Str) :=
  match r with
  | 'e' :: rest | 'E' :: rest =>
    let signed : Int × Str :=
      match rest with
      | '+' :: r2 => (1, r2)
      | '-' :: r2 => (-1, r2)
      | _ => (1, rest)
    let ds := signed.2.takeWhile isDigitCh
    if ds.isEmpty then none
    else some (signed.1 * (digitsToNat ds : Int), signed.2.dropWhile isDigitCh)
  | _ => some (0, r)

def parseNumTail (neg : Bool) (ip : Nat) (r : Str) : Option (NumV × Str) :=
  match parseFracPart r with
  | none => none
  | some (fq, r2) =>
    match parseExpPart r2 with
    | none => none
    | some (e, r3) =>
      some (roundJsNum neg (((ip : ℚ) + fq) * qPow10 e), r3)

/-- JSON number grammar: optional minus, then either a lone `0` or a
nonzero digit followed by digits, then optional fraction and exponent. -/
def parseNumber (s : Str) : Option (NumV × Str) :=
  let signed : Bool × Str :=
    match s with
    | '-' :: r => (true, r)
    | _ => (false, s)
  match signed.2 with
  | [] => none
  | c :: rest =>
    if c = '0' then parseNumTail signed.1 0 rest
    else if isDigitCh c then
      parseNumTail signed.1 (digitsToNat ((c :: rest).takeWhile isDigitCh))
        ((c :: rest).dropWhile isDigitCh)
    else none

mutual

/-- Recursive-descent JSON value parser.  The fuel argument only bounds
recursion depth; `jsonParse` supplies enough fuel that it never runs out
(each recursive call follows at least one consumed input character). -/
def parseValue : Nat → Str → Option (JVal × Str)
  | 0, _ => none
  | fuel + 1, s =>
    let s1 := skipJsonWS s
    match s1 with
    | '"' :: rest => (parseStringBody rest).map (fun p => (JVal.str p.1, p.2))
    | '{' :: rest =>
      (match skipJsonWS rest with
       | '}' :: r3 => some (JVal.obj [], r3)
       | r2 => (parseObjTail fuel r2).map (fun p => (JVal.obj p.1, p.2)))
    | '[' :: rest =>
      (match skipJsonWS rest with
       | ']' :: r3 => some (JVal.arr [], r3)
       | r2 => (parseArrTail fuel r2).map (fun p => (JVal.arr p.1, p.2)))
    | _ =>
      if (strL "true").isPrefixOf s1 then some (JVal.bool true, s1.drop 4)
      else if (strL "false").isPrefixOf s1 then some (JVal.bool false, s1.drop 5)
      else if (strL "null").isPrefixOf s1 then some (JVal.null, s1.drop 4)
      else (parseNumber s1).map (fun p => (jnumToJVal p.1, p.2))

/-- One or more array elements separated by commas, then the closing
bracket. -/
def parseArrTail : Nat → Str → Option (List JVal × Str)
  | 0, _ => none
  | fuel + 1, s =>
    match parseValue fuel s with
    | none => none
    | some (v, r) =>
      match skipJsonWS r with
      | ',' :: r2 =>
        (match parseArrTail fuel r2 with
         | some (vs, r3) => some (v :: vs, r3)
         | none => none)
      | ']' :: r2 => some ([v], r2)
      | _ => none

/-- One or more `key : value` members separated by commas, then the
closing brace. -/
def parseObjTail : Nat → Str → Option (List (Str × JVal) × Str)
  | 0, _ => none
  | fuel + 1, s =>
    match skipJsonWS s with
    | '"' :: rest =>
      (match parseStringBody rest with
       | none => none
       | some (k, r) =>
         match skipJsonWS r with
         | ':' :: r2 =>
           (match parseValue fuel r2 with
            | none => none
            | some (v, r3) =>
              match skipJsonWS r3 with
              | ',' :: r4 =>
                (match parseObjTail fuel r4 with
                 | some (fs, r5) => some ((k, v) :: fs, r5)
                 | none => none)
              | '}' :: r4 => some ([(k, v)], r4)
              | _ => none)
         | _ => none)
    | _ => none

end

/-- The embedding of JSON.parse: parse one value and require only
whitespace after it; any violation of the grammar yields `none` (the
SyntaxError of the source environment). -/
def jsonParse (s : Str) : Option JVal :=
  match parseValue (2 * s.length + 4) s with
  | some (v, rest) => if (skipJsonWS rest).isEmpty then some v else none
  | none => none

example : jsonParse (strL "\x7b\x7d") = some (JVal.obj []) := by rfl
example : jsonParse (strL " [1, 2.5, \"a\"] ") =
    some (JVal.arr [JVal.num 1, JVal.num (5/2), JVal.str (strL "a")]) := by rfl
example : jsonParse (strL "\x7b\"a\":null,\"a\":true\x7d") =
    some (JVal.obj [(strL "a", JVal.null), (strL "a", JVal.bool true)]) := by rfl
example : jsonParse (strL "\x7bhello\x7d") = none := by rfl
example : jsonParse (strL "-1.5e2") = some (JVal.num (-150)) := by rfl
example : jsonParse (strL "1e999") = some (JVal.infin true) := by rfl
example : jsonParse (strL "-1e999") = some (JVal.infin false) := by rfl
example : jsonParse (strL "01") = none := by rfl
example : jsonParse (strL "\"a\\nb\"") = some (JVal.str (strL "a\nb")) := by rfl

/- ## JavaScript value coercions used by parseGeminiResponse -/

/-- Last-assignment-wins property lookup (JSON.parse keeps the final value
of a duplicated key). -/
def lookupLast : List (Str × JVal) → Str → Option JVal
  | [], _ => none
  | (k2, v) :: rest, k =>
    match lookupLast rest k with
    | some r => some r
    | none => if k2 = k then some v else none

/-- Property access `v.k` on a non-null value: a field of an object,
`undefined` (here `none`) on anything else. -/
def jField : JVal → Str → Option JVal
  | JVal.obj fs, k => lookupLast fs k
  | _, _ => none

/-- Property access `v.k` as the source performs it: accessing a property
of `null` throws a TypeError (the `Except.error` arm). -/
def jsGetField : JVal → Str → Except Unit (Option JVal)
  | JVal.null, _ => Except.error ()
  | v, k => Except.ok (jField v k)

/-- JavaScript truthiness of a parsed JSON value.  (The falsy values NaN
and `undefined` cannot occur as a `JVal`; `undefined` is handled by
`jsTruthyO`.) -/
def jsTruthy : JVal → Bool
  | JVal.null => false
  | JVal.bool b => b
  | JVal.num q => decide (q ≠ 0)
  | JVal.str s => !s.isEmpty
  | JVal.arr _ => true
  | JVal.obj _ => true
  | JVal.infin _ => true

def jsTruthyO : Option JVal → Bool
  | none => false
  | some v => jsTruthy v

/-- Decimal digits of a natural number (the fuel is always sufficient
because `n / 10 < n` for positive `n`). -/
def natDigitsAux : Nat → Nat → Str
  | 0, _ => []
  | fuel + 1, n =>
    if n < 10 then [Char.ofNat (48 + n)]
    else natDigitsAux fuel (n / 10) ++ [Char.ofNat (48 + n % 10)]

def natDigits (n : Nat) : Str := natDigitsAux (n + 1) n

/-- Digits after the decimal point by long division, up to 30 places:
exact for every terminating decimal arising from a JSON literal in the
claims (JavaScript exponent notation for very large or small magnitudes
is not modelled; no claim exercises it). -/
def fracDigitsAux : Nat → Nat → Nat → Str
  | 0, _, _ => []
  | fuel + 1, r, d =>
    if r = 0 then []
    else Char.ofNat (48 + r * 10 / d) :: fracDigitsAux fuel (r * 10 % d) d

/-- Number-to-string conversion on the rational model of JavaScript
numbers. -/
def qToStr (q : ℚ) : Str :=
  (if q < 0 then ['-'] else []) ++
  natDigits (q.num.natAbs / q.den) ++
  (if q.num.natAbs % q.den = 0 then []
   else '.' :: fracDigitsAux 30 (q.num.natAbs % q.den) q.den)

def joinCommas : List Str → Str
  | [] => []
  | [s] => s
  | s :: rest => s ++ ',' :: joinCommas rest

mutual

/-- The JavaScript String() coercion on parsed JSON values.  Arrays
stringify via Array.prototype.join (null elements become empty strings);
plain objects become the literal `[object Object]`. -/
def jsToString : JVal → Str
  | JVal.null => strL "null"
  | JVal.bool true => strL "true"
  | JVal.bool false => strL "false"
  | JVal.num q => qToStr q
  | JVal.str s => s
  | JVal.arr xs => joinCommas (jsElemsToStrings xs)
  | JVal.obj _ => strL "[object Object]"
  | JVal.infin true => strL "Infinity"
  | JVal.infin false => strL "-Infinity"

def jsElemsToStrings : List JVal → List Str
  | [] => []
  | x :: xs =>
    (match x with
     | JVal.null => []
     | y => jsToString y) :: jsElemsToStrings xs

end

/-- Digits in a given radix, for the 0x / 0o / 0b string number forms. -/
def radixVal (radix : Nat) (c : Char) : Option Nat :=
  match hexVal c with
  | some v => if v < radix then some v else none
  | none => none

def radixNum (radix : Nat) (ds : Str) : NumV :=
  if ds.isEmpty then NumV.nan
  else if ds.all (fun c => (radixVal radix c).isSome) then
    roundJsNum false ((ds.foldl (fun n c => n * radix + ((radixVal radix c).getD 0)) 0 : Nat) : ℚ)
  else NumV.nan

/-- Unsigned part of the Number(string) grammar after the sign: the
literal `Infinity`, or digits with an optional point (digits required on
at least one side) and an optional exponent, the whole remaining input
consumed; anything else is NaN.  Computed magnitudes pass through the
IEEE non-finite boundaries of `roundJsNum`. -/
def strDecMag (neg : Bool) (r : Str) : NumV :=
  if r = strL "Infinity" then NumV.inf !neg
  else
    let ds1 := r.takeWhile isDigitCh
    let r1 := r.dropWhile isDigitCh
    let fracPair : Str × Str :=
      match r1 with
      | '.' :: rest => (rest.takeWhile isDigitCh, rest.dropWhile isDigitCh)
      | _ => ([], r1)
    if ds1.isEmpty && fracPair.1.isEmpty then NumV.nan
    else
      match parseExpPart fracPair.2 with
      | none => NumV.nan
      | some (e, r3) =>
        if r3.isEmpty then
          roundJsNum neg (((digitsToNat ds1 : ℚ) +
            (digitsToNat fracPair.1 : ℚ) / (10 : ℚ) ^ fracPair.1.length) * qPow10 e)
        else NumV.nan

/-- The JavaScript Number(string) coercion: trim, empty means zero, a
radix-tagged integer form (unsigned only), or a signed decimal or
Infinity form; anything else is NaN. -/
def strToNumber (s : Str) : NumV :=
  let t := trimBoth s
  if t.isEmpty then NumV.fin 0
  else if t.take 2 = strL "0x" || t.take 2 = strL "0X" then radixNum 16 (t.drop 2)
  else if t.take 2 = strL "0o" || t.take 2 = strL "0O" then radixNum 8 (t.drop 2)
  else if t.take 2 = strL "0b" || t.take 2 = strL "0B" then radixNum 2 (t.drop 2)
  else
    match t with
    | '-' :: r => strDecMag true r
    | '+' :: r => strDecMag false r
    | _ => strDecMag false t

/-- The JavaScript Number() coercion on parsed JSON values.  An array
converts through its string form; a plain object stringifies to
`[object Object]`, which is NaN. -/
def jsToNumber : JVal → NumV
  | JVal.null => NumV.fin 0
  | JVal.bool b => NumV.fin (if b then 1 else 0)
  | JVal.num q => NumV.fin q
  | JVal.str s => strToNumber s
  | JVal.arr xs => strToNumber (jsToString (JVal.arr xs))
  | JVal.obj _ => NumV.nan
  | JVal.infin b => NumV.inf b

/-- Number() with `undefined` (absent field) giving NaN. -/
def jsToNumberO : Option JVal → NumV
  | none => NumV.nan
  | some v => jsToNumber v

example : jsToNumber (JVal.str (strL " 2.5 ")) = NumV.fin (5/2) := by decide
example : jsToNumber (JVal.arr [JVal.num 7]) = NumV.fin 7 := by decide
example : jsToNumberO none = NumV.nan := by decide
example : jsToNumber (JVal.str (strL "Infinity")) = NumV.inf true := by decide
example : jsToNumber (JVal.str (strL "-Infinity")) = NumV.inf false := by decide
example : jsToString (JVal.num (9/10)) = strL "0.9" := by decide

/- ## The validated analysis record types (GeminiProcessor.ts) -/

/-- A video frame: id, base64 payload, capture timestamp. -/
structure Frame where
  id : Str
  data : Str
  timestamp : ℚ

/-- DetectedObject: `position` keeps the raw JSON value the validator kept
(`obj.position || undefined` stores whatever truthy value was present),
`none` standing for `undefined`. -/
structure DetectedObject where
  name : Str
  position : Option JVal
  confidence : NumV
  lastSeenAt : ℚ

/-- The source interface `Action` (the name itself collides with a
library declaration, hence the suffix). -/
structure ActionRec where
  description : Str
  objects : List Str
  confidence : NumV
  timestamp : ℚ

structure Relationship where
  object1 : Str
  object2 : Str
  relationship : Str

structure AnalysisResult where
  objects : List DetectedObject
  actions : List ActionRec
  sceneDescription : Str
  relationships : List Relationship
  timestamp : ℚ

/-- ProcessingContext of GeminiProcessor. -/
structure ProcessingContext where
  recentObjects : List DetectedObject
  recentActions : List ActionRec
  sceneDescription : Option Str
  lastProcessedTimestamp : ℚ
  contextWindow : List Frame

/- ## parseGeminiResponse -/

def keyObjects : Str := strL "objects"
def keyActions : Str := strL "actions"
def keySceneDescription : Str := strL "sceneDescription"
def keyRelationships : Str := strL "relationships"
def keyName : Str := strL "name"
def keyPosition : Str := strL "position"
def keyConfidence : Str := strL "confidence"
def keyDescription : Str := strL "description"
def keyObject1 : Str := strL "object1"
def keyObject2 : Str := strL "object2"
def keyRelationship : Str := strL "relationship"

/-- The `Array.isArray(x) ? x : []` coercion. -/
def asArray : Option JVal → List JVal
  | some (JVal.arr xs) => xs
  | _ => []

/-- The `String(x || 'dflt')` idiom used throughout the validator. -/
def strWithDefault (v : Option JVal) (dflt : Str) : Str :=
  match v with
  | some x => if jsTruthy x then jsToString x else dflt
  | none => dflt

/-- Element-wise validation of one entry of `parsed.objects`.  Accessing a
property of a null element throws. -/
def validateObject (t : ℚ) (o : JVal) : Except Unit DetectedObject :=
  match o with
  | JVal.null => Except.error ()
  | _ =>
    Except.ok
      { name := strWithDefault (jField o keyName) (strL "Unknown Object")
        position :=
          (match jField o keyPosition with
           | some p => if jsTruthy p then some p else none
           | none => none)
        confidence :=
          (match jsToNumberO (jField o keyConfidence) with
           | NumV.fin q => if q = 0 then NumV.fin 0.5 else NumV.fin q
           | NumV.nan => NumV.fin 0.5
           | NumV.inf b => NumV.inf b)
        lastSeenAt := t }

/-- Element-wise validation of one entry of `parsed.actions`. -/
def validateAction (t : ℚ) (a : JVal) : Except Unit ActionRec :=
  match a with
  | JVal.null => Except.error ()
  | _ =>
    Except.ok
      { description := strWithDefault (jField a keyDescription) (strL "Unknown Action")
        objects :=
          (match jField a keyObjects with
           | some (JVal.arr xs) => xs.map jsToString
           | _ => [])
        confidence :=
          (match jsToNumberO (jField a keyConfidence) with
           | NumV.fin q => if q = 0 then NumV.fin 0.5 else NumV.fin q
           | NumV.nan => NumV.fin 0.5
           | NumV.inf b => NumV.inf b)
        timestamp := t }

/-- Element-wise validation of one entry of `parsed.relationships`. -/
def validateRel (r : JVal) : Except Unit Relationship :=
  match r with
  | JVal.null => Except.error ()
  | _ =>
    Except.ok
      { object1 := strWithDefault (jField r keyObject1) (strL "Unknown Object")
        object2 := strWithDefault (jField r keyObject2) (strL "Unknown Object")
        relationship := strWithDefault (jField r keyRelationship) (strL "near") }

/-- Array.prototype.map with a function that can throw: the first thrown
element aborts the whole map. -/
def exMapM (f : α → Except Unit β) : List α → Except Unit (List β)
  | [] => Except.ok []
  | x :: xs =>
    match f x with
    | Except.error e => Except.error e
    | Except.ok y =>
      match exMapM f xs with
      | Except.error e => Except.error e
      | Except.ok ys => Except.ok (y :: ys)

/-- The degraded result returned from the catch block of
parseGeminiResponse. -/
def failedResult (t : ℚ) : AnalysisResult :=
  { objects := []
    actions := []
    sceneDescription := strL "Failed to analyze scene"
    relationships := []
    timestamp := t }

/-- The body of the try block of parseGeminiResponse after JSON.parse
succeeded: build validatedResponse (array coercions and the
sceneDescription typeof check), then run the three element validators in
statement order.  Property access on a null `parsed` or null elements
throws into the catch block. -/
def interpretParsed (t : ℚ) (parsed : JVal) : Except Unit AnalysisResult :=
  match jsGetField parsed keyObjects with
  | Except.error e => Except.error e
  | Except.ok objsV =>
    match jsGetField parsed keyActions with
    | Except.error e => Except.error e
    | Except.ok actsV =>
      match jsGetField parsed keySceneDescription with
      | Except.error e => Except.error e
      | Except.ok descV =>
        match jsGetField parsed keyRelationships with
        | Except.error e => Except.error e
        | Except.ok relsV =>
          let desc : Str :=
            match descV with
            | some (JVal.str s) => s
            | _ => strL "No description available"
          match exMapM (validateObject t) (asArray objsV) with
          | Except.error e => Except.error e
          | Except.ok objects =>
            match exMapM (validateAction t) (asArray actsV) with
            | Except.error e => Except.error e
            | Except.ok actions =>
              match exMapM validateRel (asArray relsV) with
              | Except.error e => Except.error e
              | Except.ok relationships =>
                Except.ok
                  { objects := objects
                    actions := actions
                    sceneDescription := desc
                    relationships := relationships
                    timestamp := t }

/-- GeminiProcessor.parseGeminiResponse: clean, decode, validate; any
throw inside the try block (JSON.parse SyntaxError or a TypeError from a
null property access) lands in the catch block, which returns the
degraded result.  `t` is the Date.now() reading of the call. -/
def parseGeminiResponse (t : ℚ) (response : Str) : AnalysisResult :=
  match jsonParse (extractAndCleanJson response) with
  | none => failedResult t
  | some parsed =>
    match interpretParsed t parsed with
    | Except.ok r => r
    | Except.error _ => failedResult t

example : parseGeminiResponse 0 (strL "hello") = failedResult 0 := by rfl
example :
    parseGeminiResponse 7
      (strL "```json\n\x7b\"objects\":[\x7b\"name\":\"cup\",\"confidence\":0.9\x7d],\"actions\":[],\"sceneDescription\":\"a cup on a table\",\"relationships\":[]\x7d\n```") =
    { objects := [{ name := strL "cup", position := none, confidence := NumV.fin 0.9, lastSeenAt := 7 }]
      actions := []
      sceneDescription := strL "a cup on a table"
      relationships := []
      timestamp := 7 } := by rfl

/- ## Scene memory (GeminiProcessor.updateContext and friends) -/

def MAX_CONTEXT_FRAMES : Nat := 5

def OBJECT_MEMORY_DURATION : ℚ := 10000

/-- GeminiProcessor.updateContextWindow: push, then shift once if the
window exceeds MAX_CONTEXT_FRAMES. -/
def updateContextWindow (window : List Frame) (frame : Frame) : List Frame :=
  let w := window ++ [frame]
  if w.length > MAX_CONTEXT_FRAMES then w.drop 1 else w

/-- One iteration of the forEach over `analysis.objects`: the first entry
with the same name is refreshed in place (position, confidence, last-seen
time); when none exists the object is appended, stamped with the merge
time. -/
def updateOne (objs : List DetectedObject) (o : DetectedObject) (now : ℚ) :
    List DetectedObject :=
  match objs with
  | [] => [{ o with lastSeenAt := now }]
  | e :: rest =>
    if e.name = o.name then
      { e with position := o.position, confidence := o.confidence, lastSeenAt := now } :: rest
    else e :: updateOne rest o now

/-- GeminiProcessor.updateContext: merge the objects, append the stamped
actions (the `if (analysis.actions)` guard is always truthy on an array
and is therefore not modelled), sweep objects older than
OBJECT_MEMORY_DURATION, keep the last 10 actions (slice(-10)), and
overwrite the scene description. -/
def updateContext (ctx : ProcessingContext) (analysis : AnalysisResult) (now : ℚ) :
    ProcessingContext :=
  let objs1 := analysis.objects.foldl (fun acc o => updateOne acc o now) ctx.recentObjects
  let acts1 := ctx.recentActions ++ analysis.actions.map (fun a => { a with timestamp := now })
  { recentObjects := objs1.filter (fun o => now - o.lastSeenAt < OBJECT_MEMORY_DURATION)
    recentActions := acts1.drop (acts1.length - 10)
    sceneDescription := some analysis.sceneDescription
    lastProcessedTimestamp := now
    contextWindow := ctx.contextWindow }

/-- GeminiProcessor.clearContext: replace the context with a fresh one. -/
def clearContext (_ctx : ProcessingContext) : ProcessingContext :=
  { recentObjects := []
    recentActions := []
    sceneDescription := none
    lastProcessedTimestamp := 0
    contextWindow := [] }

/-- GeminiProcessor.processFrame with the external inference round trip
(`model.generateContent` / `response.text()`) abstracted as an input:
push the frame into the context window, then either rethrow the
inference failure (the catch block rethrows after logging) or parse the
returned text and merge the analysis. -/
def processFrame (ctx : ProcessingContext) (frame : Frame)
    (resp : Except Str Str) (now : ℚ) :
    ProcessingContext × Except Str AnalysisResult :=
  let ctx1 := { ctx with contextWindow := updateContextWindow ctx.contextWindow frame }
  match resp with
  | Except.error e => (ctx1, Except.error e)
  | Except.ok text =>
    let analysis := parseGeminiResponse now text
    (updateContext ctx1 analysis now, Except.ok analysis)

/- ## FrameQueue (server.ts) -/

def maxQueueSize : Nat := 10

def processDelay : ℚ := 500

/-- FrameQueue.enqueue, state part: shift the oldest entry when the queue
is full, then push.  The producer is never blocked: the function is total
and always appends its item. -/
def fqEnqueue {α : Type} (q : List α) (item : α) : List α :=
  (if q.length ≥ maxQueueSize then q.drop 1 else q) ++ [item]

/-- Queue operations: an enqueue, or the shift performed by the worker
loop when it dequeues. -/
inductive QOp (α : Type) where
  | enq (item : α)
  | deq

def applyOp {α : Type} (q : List α) : QOp α → List α
  | QOp.enq item => fqEnqueue q item
  | QOp.deq => q.drop 1

def applyOps {α : Type} (q : List α) (ops : List (QOp α)) : List α :=
  ops.foldl applyOp q

/- ## The worker loop of FrameQueue as a labelled transition system

A processQueue activation is suspended either at the inference await or
at the 500 ms setTimeout await; everything between two awaits runs
atomically on the single JavaScript thread.  `workers` is the multiset of
live activations (the invariant of interest is that there is never more
than one).  The socket argument of a queue item plays no role in the
state and is omitted; `complete false` is an inference rejection landing
in the catch block, which emits an error event and falls through to the
same delay as a success. -/

inductive WPhase where
  | inflight (item : Frame)
  | delaying (completedAt : ℚ)

structure QState where
  queue : List Frame
  processing : Bool
  workers : List WPhase
  now : ℚ

def initState : QState := { queue := [], processing := false, workers := [], now := 0 }

inductive QLabel where
  | enqueue (i : Frame)
  | complete (ok : Bool)
  | wake
  | tick (d : ℚ)

inductive QStep : QState → QLabel → QState → Prop where
  | enqueueIdle : ∀ (s : QState) (i qh : Frame) (qt : List Frame),
      s.processing = false →
      fqEnqueue s.queue i = qh :: qt →
      QStep s (QLabel.enqueue i)
        { queue := qt, processing := true,
          workers := s.workers ++ [WPhase.inflight qh], now := s.now }
  | enqueueBusy : ∀ (s : QState) (i : Frame),
      s.processing = true →
      QStep s (QLabel.enqueue i)
        { queue := fqEnqueue s.queue i, processing := true,
          workers := s.workers, now := s.now }
  | complete : ∀ (s : QState) (ok : Bool) (w1 w2 : List WPhase) (it : Frame),
      s.workers = w1 ++ WPhase.inflight it :: w2 →
      QStep s (QLabel.complete ok)
        { queue := s.queue, processing := s.processing,
          workers := w1 ++ WPhase.delaying s.now :: w2, now := s.now }
  | wakeEmpty : ∀ (s : QState) (w1 w2 : List WPhase) (t0 : ℚ),
      s.workers = w1 ++ WPhase.delaying t0 :: w2 →
      s.queue = [] →
      s.now ≥ t0 + processDelay →
      QStep s QLabel.wake
        { queue := [], processing := false, workers := w1 ++ w2, now := s.now }
  | wakeNext : ∀ (s : QState) (w1 w2 : List WPhase) (t0 : ℚ) (qh : Frame) (qt : List Frame),
      s.workers = w1 ++ WPhase.delaying t0 :: w2 →
      s.queue = qh :: qt →
      s.now ≥ t0 + processDelay →
      QStep s QLabel.wake
        { queue := qt, processing := true,
          workers := w1 ++ WPhase.inflight qh :: w2, now := s.now }
  | tick : ∀ (s : QState) (d : ℚ), 0 ≤ d →
      QStep s (QLabel.tick d)
        { queue := s.queue, processing := s.processing,
          workers := s.workers, now := s.now + d }

inductive QReach : QState → Prop where
  | init : QReach initState
  | step : ∀ (s : QState) (l : QLabel) (s2 : QState),
      QReach s → QStep s l s2 → QReach s2

def isInflight : WPhase → Bool
  | WPhase.inflight _ => true
  | WPhase.delaying _ => false

/-- Number of inference calls in flight. -/
def numInflight (s : QState) : Nat := (s.workers.filter isInflight).length

/- ## Session state and the reset operation (claim C8)

The repository implements exactly one session-reset operation,
GeminiProcessor.clearContext; FrameQueue (server.ts) exposes no clearing
or draining method, so pending queue items are untouched by a reset. -/

structure SessionState where
  queue : List Frame
  ctx : ProcessingContext

def resetSession (s : SessionState) : SessionState :=
  { queue := s.queue, ctx := clearContext s.ctx }

/- ## The frame-rate limiter (VideoFrameExtractor.extractFrames) -/

/-- frameInterval = 1000 / targetFps. -/
def frameInterval (targetFps : ℚ) : ℚ := 1000 / targetFps

/-- The acceptance loop of extractFrames over a stream of
performance.now() readings: a sample is taken iff the time since the last
taken frame is at least the interval, and only then is lastFrameTime
advanced.  Returns the accepted timestamps in order. -/
def runRL (interval : ℚ) (last : ℚ) : List ℚ → List ℚ
  | [] => []
  | t :: ts =>
    if interval ≤ t - last then t :: runRL interval t ts
    else runRL interval last ts

example : runRL (frameInterval 2) 0 [1000, 1010, 1020] = [1000] := by
  simp [runRL, frameInterval]
  norm_num

/- ## Spec-side definitions

`schemaGood` and `resultOfSchema` follow the words of the specification
(a payload "matching the schema" and its fields "round-tripped
unchanged"), for comparison against the validator; `claimConfRule` is the
confidence rule as worded in claim C10. -/

def isObjB : JVal → Bool
  | JVal.obj _ => true
  | _ => false

def isStrVal : JVal → Bool
  | JVal.str _ => true
  | _ => false

def isNonemptyStrField : Option JVal → Bool
  | some (JVal.str s) => !s.isEmpty
  | _ => false

def isStrField : Option JVal → Bool
  | some (JVal.str _) => true
  | _ => false

def isNonzeroNumField : Option JVal → Bool
  | some (JVal.num q) => decide (q ≠ 0)
  | _ => false

def schemaGoodObj (o : JVal) : Bool :=
  isObjB o &&
  isNonemptyStrField (jField o keyName) &&
  isNonzeroNumField (jField o keyConfidence) &&
  (match jField o keyPosition with
   | none => true
   | some p => jsTruthy p)

def schemaGoodAct (a : JVal) : Bool :=
  isObjB a &&
  isNonemptyStrField (jField a keyDescription) &&
  isNonzeroNumField (jField a keyConfidence) &&
  (match jField a keyObjects with
   | some (JVal.arr xs) => xs.all isStrVal
   | _ => false)

def schemaGoodRel (r : JVal) : Bool :=
  isObjB r &&
  isNonemptyStrField (jField r keyObject1) &&
  isNonemptyStrField (jField r keyObject2) &&
  isNonemptyStrField (jField r keyRelationship)

/-- A decoded payload matching the AnalysisResult schema: the four fields
present with their schema types, object names and confidences present
(nonempty names, nonzero confidences, truthy positions when present) so
that no defaulting clause may fire. -/
def schemaGood (v : JVal) : Bool :=
  isObjB v &&
  (match jField v keyObjects with
   | some (JVal.arr os) => os.all schemaGoodObj
   | _ => false) &&
  (match jField v keyActions with
   | some (JVal.arr acts) => acts.all schemaGoodAct
   | _ => false) &&
  isStrField (jField v keySceneDescription) &&
  (match jField v keyRelationships with
   | some (JVal.arr rs) => rs.all schemaGoodRel
   | _ => false)

def strOf : Option JVal → Str
  | some (JVal.str s) => s
  | _ => []

def numOf : Option JVal → NumV
  | some (JVal.num q) => NumV.fin q
  | _ => NumV.fin 0

def strValOf : JVal → Str
  | JVal.str s => s
  | _ => []

def specObjOf (t : ℚ) (o : JVal) : DetectedObject :=
  { name := strOf (jField o keyName)
    position := jField o keyPosition
    confidence := numOf (jField o keyConfidence)
    lastSeenAt := t }

def specActOf (t : ℚ) (a : JVal) : ActionRec :=
  { description := strOf (jField a keyDescription)
    objects := (asArray (jField a keyObjects)).map strValOf
    confidence := numOf (jField a keyConfidence)
    timestamp := t }

def specRelOf (r : JVal) : Relationship :=
  { object1 := strOf (jField r keyObject1)
    object2 := strOf (jField r keyObject2)
    relationship := strOf (jField r keyRelationship) }

/-- The payload fields verbatim, with only the timestamps added: what the
spec means by a round trip. -/
def resultOfSchema (v : JVal) (t : ℚ) : AnalysisResult :=
  { objects := (asArray (jField v keyObjects)).map (specObjOf t)
    actions := (asArray (jField v keyActions)).map (specActOf t)
    sceneDescription := strOf (jField v keySceneDescription)
    relationships := (asArray (jField v keyRelationships)).map specRelOf
    timestamp := t }

/-- The confidence rule in the words of claim C10: the Number() view of
the input confidence when that is a nonzero finite number, and 0.5
otherwise (so 0.5 for NaN, zero, and the non-finite values). -/
def claimConfRule (n : NumV) : NumV :=
  match n with
  | NumV.fin q => if q ≠ 0 then NumV.fin q else NumV.fin 0.5
  | _ => NumV.fin 0.5

/-- The corrected confidence rule, matching `Number(x) || 0.5`: the
Number() view is kept whenever it is truthy — a nonzero finite value or
an Infinity — and 0.5 replaces only NaN and zero. -/
def amendedConfRule (n : NumV) : NumV :=
  match n with
  | NumV.fin q => if q ≠ 0 then NumV.fin q else NumV.fin 0.5
  | NumV.nan => NumV.fin 0.5
  | NumV.inf b => NumV.inf b

/- ## Shared list lemmas for the two bounded buffers -/

theorem fqEnqueue_lastN {α : Type} (q : List α) (i : α) (h : q.length ≤ maxQueueSize) :
    fqEnqueue q i = (q ++ [i]).drop (q.length + 1 - maxQueueSize) := by
  by_cases hge : q.length ≥ maxQueueSize
  · have hq : q.length = maxQueueSize := le_antisymm h hge
    simp only [fqEnqueue, hge, if_pos]
    rw [hq]
    simp only [maxQueueSize] at hq ⊢
    rw [List.drop_append_of_le_length (by omega)]
  · simp only [fqEnqueue, hge, if_neg, not_false_iff]
    have : q.length + 1 - maxQueueSize = 0 := by omega
    rw [this, List.drop_zero]

theorem fqEnqueue_length {α : Type} (q : List α) (i : α) (h : q.length ≤ maxQueueSize) :
    (fqEnqueue q i).length ≤ maxQueueSize := by
  rw [fqEnqueue_lastN q i h]
  simp only [List.length_drop, List.length_append, List.length_singleton]
  simp only [maxQueueSize] at h ⊢
  omega

theorem applyOp_length {α : Type} (q : List α) (op : QOp α) (h : q.length ≤ maxQueueSize) :
    (applyOp q op).length ≤ maxQueueSize := by
  cases op with
  | enq item => exact fqEnqueue_length q item h
  | deq =>
    simp only [applyOp, List.length_drop]
    omega

theorem applyOps_length {α : Type} (ops : List (QOp α)) :
    ∀ q : List α, q.length ≤ maxQueueSize → (applyOps q ops).length ≤ maxQueueSize := by
  induction ops with
  | nil => intro q h; simpa [applyOps] using h
  | cons op rest ih =>
    intro q h
    have h1 := applyOp_length q op h
    simpa [applyOps, List.foldl_cons] using ih (applyOp q op) h1

theorem foldl_fqEnqueue_lastN {α : Type} (xs : List α) :
    xs.foldl fqEnqueue [] = xs.drop (xs.length - maxQueueSize) := by
  induction xs using List.reverseRecOn with
  | nil => simp
  | append_singleton xs x ih =>
    have hlen : (xs.foldl fqEnqueue []).length ≤ maxQueueSize := by
      rw [ih]
      simp only [List.length_drop, maxQueueSize]
      omega
    rw [List.foldl_append, List.foldl_cons, List.foldl_nil,
      fqEnqueue_lastN _ x hlen, ih]
    have hdrop : xs.length - maxQueueSize ≤ xs.length := Nat.sub_le _ _
    rw [← List.drop_append_of_le_length hdrop, List.drop_drop]
    congr 1
    simp only [List.length_drop, List.length_append, List.length_singleton, maxQueueSize]
    omega

theorem updateContextWindow_lastN (w : List Frame) (f : Frame)
    (h : w.length ≤ MAX_CONTEXT_FRAMES) :
    updateContextWindow w f = (w ++ [f]).drop (w.length + 1 - MAX_CONTEXT_FRAMES) := by
  by_cases hgt : (w ++ [f]).length > MAX_CONTEXT_FRAMES
  · have hw : w.length = MAX_CONTEXT_FRAMES := by
      simp only [List.length_append, List.length_singleton, MAX_CONTEXT_FRAMES] at hgt h ⊢
      omega
    simp only [updateContextWindow, hgt, if_pos]
    rw [hw]
    simp only [MAX_CONTEXT_FRAMES] at hw ⊢
  · simp only [updateContextWindow, hgt, if_neg, not_false_iff]
    have : w.length + 1 - MAX_CONTEXT_FRAMES = 0 := by
      simp only [List.length_append, List.length_singleton, MAX_CONTEXT_FRAMES] at hgt ⊢
      omega
    rw [this, List.drop_zero]

theorem updateContextWindow_length (w : List Frame) (f : Frame)
    (h : w.length ≤ MAX_CONTEXT_FRAMES) :
    (updateContextWindow w f).length ≤ MAX_CONTEXT_FRAMES := by
  rw [updateContextWindow_lastN w f h]
  simp only [List.length_drop, List.length_append, List.length_singleton, MAX_CONTEXT_FRAMES]
  omega

theorem foldl_updateContextWindow_lastN (fs : List Frame) :
    fs.foldl updateContextWindow [] = fs.drop (fs.length - MAX_CONTEXT_FRAMES) := by
  induction fs using List.reverseRecOn with
  | nil => simp
  | append_singleton fs f ih =>
    have hlen : (fs.foldl updateContextWindow []).length ≤ MAX_CONTEXT_FRAMES := by
      rw [ih]
      simp only [List.length_drop, MAX_CONTEXT_FRAMES]
      omega
    rw [List.foldl_append, List.foldl_cons, List.foldl_nil,
      updateContextWindow_lastN _ f hlen, ih]
    have hdrop : fs.length - MAX_CONTEXT_FRAMES ≤ fs.length := Nat.sub_le _ _
    rw [← List.drop_append_of_le_length hdrop, List.drop_drop]
    congr 1
    simp only [List.length_drop, List.length_append, List.length_singleton, MAX_CONTEXT_FRAMES]
    omega

/- ## Concrete sample data used by witnesses and counterexamples -/

def frameA : Frame := { id := strL "frame-1", data := strL "AAAA", timestamp := 0 }

def frameB : Frame := { id := strL "frame-2", data := strL "BBBB", timestamp := 1 }

def sampleCtx : ProcessingContext :=
  { recentObjects := [{ name := strL "cup", position := none, confidence := NumV.fin 0.9, lastSeenAt := 0 }]
    recentActions := []
    sceneDescription := some (strL "previous scene")
    lastProcessedTimestamp := 0
    contextWindow := [] }

/- ## Claim C2 -/

/-- C2: the request queue length never exceeds 10 across any sequence of
enqueue and dequeue operations; enqueue on a full queue evicts index 0
(the oldest) and then appends, the new item always becoming the last
element; folding enqueues from an empty queue keeps exactly the 10 most
recent items in order; the producer is never blocked (enqueue is total
and always appends its item). -/
theorem c2_queue_bounded_evicts_oldest :
    (∀ ops : List (QOp Frame), (applyOps [] ops).length ≤ maxQueueSize)
    ∧ (∀ (q : List Frame) (i : Frame), q.length = maxQueueSize →
        fqEnqueue q i = q.drop 1 ++ [i])
    ∧ (∀ (q : List Frame) (i : Frame), (fqEnqueue q i).getLast? = some i)
    ∧ (∀ xs : List Frame, xs.foldl fqEnqueue [] = xs.drop (xs.length - maxQueueSize)) := by
  refine ⟨fun ops => applyOps_length ops [] (by simp [maxQueueSize]), ?_, ?_, foldl_fqEnqueue_lastN⟩
  · intro q i h
    simp only [fqEnqueue, h, ge_iff_le, le_refl, if_pos]
  · intro q i
    simp [fqEnqueue]

/-- Witness for C2 at a concrete full queue of ten frames. -/
theorem c2_queue_bounded_evicts_oldest_witness :
    fqEnqueue (List.replicate 10 frameA) frameB =
      (List.replicate 10 frameA).drop 1 ++ [frameB] :=
  c2_queue_bounded_evicts_oldest.2.1 (List.replicate 10 frameA) frameB (by simp [maxQueueSize])

/- ## Claim C5 -/

/-- C5: the context window never exceeds 5 samples; pushing into a full
window evicts the oldest before the append (the result is the old tail
plus the new frame); after any sequence of pushes from empty the window
is exactly the last 5 frames in their original order; and processFrame
only pushes into the window — building the request parts reads the
window without clearing or otherwise modifying it. -/
theorem c5_context_window_bounded :
    (∀ (w : List Frame) (f : Frame), w.length ≤ MAX_CONTEXT_FRAMES →
        (updateContextWindow w f).length ≤ MAX_CONTEXT_FRAMES)
    ∧ (∀ (w : List Frame) (f : Frame), w.length = MAX_CONTEXT_FRAMES →
        updateContextWindow w f = w.drop 1 ++ [f])
    ∧ (∀ fs : List Frame,
        fs.foldl updateContextWindow [] = fs.drop (fs.length - MAX_CONTEXT_FRAMES))
    ∧ (∀ (ctx : ProcessingContext) (frame : Frame) (resp : Except Str Str) (now : ℚ),
        ((processFrame ctx frame resp now).1).contextWindow =
          updateContextWindow ctx.contextWindow frame) := by
  refine ⟨updateContextWindow_length, ?_, foldl_updateContextWindow_lastN, ?_⟩
  · intro w f h
    rw [updateContextWindow_lastN w f (le_of_eq h), h]
    simp only [MAX_CONTEXT_FRAMES] at h ⊢
    rw [List.drop_append_of_le_length (by omega)]
  · intro ctx frame resp now
    cases resp with
    | error e => rfl
    | ok text => rfl

/-- Witness for C5 at a concrete full window of five frames. -/
theorem c5_context_window_bounded_witness :
    updateContextWindow (List.replicate 5 frameA) frameB =
      (List.replicate 5 frameA).drop 1 ++ [frameB] :=
  c5_context_window_bounded.2.1 (List.replicate 5 frameA) frameB (by simp [MAX_CONTEXT_FRAMES])

/- ## Claim C8 (corrected) -/

/-- C8 counterexample: the claim says a session reset empties the request
queue, but the repository's only reset operation
(GeminiProcessor.clearContext) does not touch the FrameQueue, which has
no clearing method; with three items queued, the queue still holds three
items after the reset. -/
theorem c8_reset_counterexample :
    (resetSession { queue := [frameA, frameA, frameA], ctx := sampleCtx }).queue.length = 3
    ∧ (resetSession { queue := [frameA, frameA, frameA], ctx := sampleCtx }).queue.length ≠ 0 := by
  constructor
  · rfl
  · intro h
    simp [resetSession] at h

/-- C8 (amended): reset clears Scene Memory — objects, action log, scene
description, context window, and the last-processed timestamp are all
reset — but the request queue is left untouched, because no queue-clearing
operation exists in the repository. -/
theorem c8_reset_clears_memory_not_queue :
    ∀ s : SessionState,
      (resetSession s).ctx.recentObjects = []
      ∧ (resetSession s).ctx.recentActions = []
      ∧ (resetSession s).ctx.sceneDescription = none
      ∧ (resetSession s).ctx.contextWindow = []
      ∧ (resetSession s).ctx.lastProcessedTimestamp = 0
      ∧ (resetSession s).queue = s.queue := by
  intro s
  exact ⟨rfl, rfl, rfl, rfl, rfl, rfl⟩

/- ## Claim C1 -/

/-- C1: parseGeminiResponse is a total function into AnalysisResult (the
embedding of "never throws to the caller"), and whenever JSON decoding of
the cleaned text still fails after the recovery transforms, the returned
result has empty objects, actions and relationships arrays and the scene
description `Failed to analyze scene`. -/
theorem c1_parse_total_and_degraded :
    ∀ (t : ℚ) (response : Str),
      jsonParse (extractAndCleanJson response) = none →
      (parseGeminiResponse t response).objects = []
      ∧ (parseGeminiResponse t response).actions = []
      ∧ (parseGeminiResponse t response).relationships = []
      ∧ (parseGeminiResponse t response).sceneDescription = strL "Failed to analyze scene" := by
  intro t response h
  simp [parseGeminiResponse, h, failedResult]

/-- Witness for C1: pure prose survives the recovery transforms as
undecodable text and yields the degraded result. -/
theorem c1_parse_total_and_degraded_witness :
    jsonParse (extractAndCleanJson (strL "I cannot answer that")) = none
    ∧ ((parseGeminiResponse 3 (strL "I cannot answer that")).objects = []
      ∧ (parseGeminiResponse 3 (strL "I cannot answer that")).actions = []
      ∧ (parseGeminiResponse 3 (strL "I cannot answer that")).relationships = []
      ∧ (parseGeminiResponse 3 (strL "I cannot answer that")).sceneDescription =
          strL "Failed to analyze scene") :=
  ⟨rfl, c1_parse_total_and_degraded 3 (strL "I cannot answer that") rfl⟩

/- ## Claim C10 -/

theorem confRule_eq (n : NumV) :
    (match n with
     | NumV.fin q => if q = 0 then NumV.fin 0.5 else NumV.fin q
     | NumV.nan => NumV.fin 0.5
     | NumV.inf b => NumV.inf b) = amendedConfRule n := by
  cases n with
  | nan => rfl
  | inf b => rfl
  | fin q =>
    by_cases hq : q = 0
    · simp [amendedConfRule, hq]
    · simp [amendedConfRule, hq]

theorem amendedConfRule_ne_fin_zero (n : NumV) : amendedConfRule n ≠ NumV.fin 0 := by
  cases n with
  | nan =>
    simp only [amendedConfRule, ne_eq, NumV.fin.injEq]
    norm_num
  | inf b => simp [amendedConfRule]
  | fin q =>
    by_cases hq : q = 0
    · simp only [amendedConfRule, hq, ne_eq, ite_not, if_pos, NumV.fin.injEq]
      norm_num
    · simp [amendedConfRule, hq]

theorem exMapM_ok_forall₂ {α β : Type} (f : α → Except Unit β) :
    ∀ (xs : List α) (ys : List β), exMapM f xs = Except.ok ys →
      List.Forall₂ (fun x y => f x = Except.ok y) xs ys := by
  intro xs
  induction xs with
  | nil =>
    intro ys h
    simp only [exMapM, Except.ok.injEq] at h
    rw [← h]
    exact List.Forall₂.nil
  | cons x rest ih =>
    intro ys h
    simp only [exMapM] at h
    cases hfx : f x with
    | error e => rw [hfx] at h; cases h
    | ok y =>
      rw [hfx] at h
      cases hrest : exMapM f rest with
      | error e => rw [hrest] at h; cases h
      | ok ys2 =>
        rw [hrest] at h
        injection h with h2
        rw [← h2]
        exact List.Forall₂.cons hfx (ih ys2 hrest)

theorem exMapM_ok_mem {α β : Type} (f : α → Except Unit β) :
    ∀ (xs : List α) (ys : List β), exMapM f xs = Except.ok ys →
      ∀ y ∈ ys, ∃ x, f x = Except.ok y := by
  intro xs
  induction xs with
  | nil =>
    intro ys h y hy
    simp only [exMapM, Except.ok.injEq] at h
    rw [← h] at hy
    cases hy
  | cons x rest ih =>
    intro ys h y hy
    simp only [exMapM] at h
    cases hfx : f x with
    | error e => rw [hfx] at h; cases h
    | ok y2 =>
      rw [hfx] at h
      cases hrest : exMapM f rest with
      | error e => rw [hrest] at h; cases h
      | ok ys2 =>
        rw [hrest] at h
        injection h with h2
        rw [← h2] at hy
        cases hy with
        | head => exact ⟨x, hfx⟩
        | tail _ hmem => exact ih ys2 hrest y hmem

theorem jsGetField_nonnull (v : JVal) (k : Str) (h : v ≠ JVal.null) :
    jsGetField v k = Except.ok (jField v k) := by
  cases v with
  | null => exact absurd rfl h
  | bool b => rfl
  | num q => rfl
  | str s => rfl
  | arr xs => rfl
  | obj fs => rfl
  | infin b => rfl

theorem interpretParsed_ok_parts (t : ℚ) (parsed : JVal) (r : AnalysisResult)
    (h : interpretParsed t parsed = Except.ok r) :
    exMapM (validateObject t) (asArray (jField parsed keyObjects)) = Except.ok r.objects
    ∧ exMapM (validateAction t) (asArray (jField parsed keyActions)) = Except.ok r.actions
    ∧ exMapM validateRel (asArray (jField parsed keyRelationships)) = Except.ok r.relationships
    ∧ r.timestamp = t := by
  have hnn : parsed ≠ JVal.null := by
    intro hEq
    rw [hEq] at h
    simp [interpretParsed, jsGetField] at h
  simp only [interpretParsed, jsGetField_nonnull parsed _ hnn] at h
  cases hO : exMapM (validateObject t) (asArray (jField parsed keyObjects)) with
  | error e => rw [hO] at h; cases h
  | ok objects =>
    rw [hO] at h
    cases hA : exMapM (validateAction t) (asArray (jField parsed keyActions)) with
    | error e => rw [hA] at h; cases h
    | ok actions =>
      rw [hA] at h
      cases hR : exMapM validateRel (asArray (jField parsed keyRelationships)) with
      | error e => rw [hR] at h; cases h
      | ok relationships =>
        rw [hR] at h
        injection h with h2
        rw [← h2]
        exact ⟨rfl, rfl, rfl, rfl⟩

theorem validateObject_ok_conf (t : ℚ) (o : JVal) (d : DetectedObject)
    (h : validateObject t o = Except.ok d) :
    d.confidence = amendedConfRule (jsToNumberO (jField o keyConfidence)) := by
  cases o with
  | null => simp [validateObject] at h
  | bool b => injection h with h2; rw [← h2]; simp only [confRule_eq]
  | num q => injection h with h2; rw [← h2]; simp only [confRule_eq]
  | str s => injection h with h2; rw [← h2]; simp only [confRule_eq]
  | arr xs => injection h with h2; rw [← h2]; simp only [confRule_eq]
  | obj fs => injection h with h2; rw [← h2]; simp only [confRule_eq]
  | infin b => injection h with h2; rw [← h2]; simp only [confRule_eq]

theorem validateAction_ok_conf (t : ℚ) (a : JVal) (act : ActionRec)
    (h : validateAction t a = Except.ok act) :
    act.confidence = amendedConfRule (jsToNumberO (jField a keyConfidence)) := by
  cases a with
  | null => simp [validateAction] at h
  | bool b => injection h with h2; rw [← h2]; simp only [confRule_eq]
  | num q => injection h with h2; rw [← h2]; simp only [confRule_eq]
  | str s => injection h with h2; rw [← h2]; simp only [confRule_eq]
  | arr xs => injection h with h2; rw [← h2]; simp only [confRule_eq]
  | obj fs => injection h with h2; rw [← h2]; simp only [confRule_eq]
  | infin b => injection h with h2; rw [← h2]; simp only [confRule_eq]

def c10InfResp : Str :=
  strL "\x7b\"objects\":[\x7b\"name\":\"cup\",\"confidence\":\"Infinity\"\x7d],\"actions\":[],\"sceneDescription\":\"ok\",\"relationships\":[]\x7d"

def c10InfObj : JVal :=
  JVal.obj [(strL "name", JVal.str (strL "cup")),
            (strL "confidence", JVal.str (strL "Infinity"))]

def c10InfParsed : JVal :=
  JVal.obj
    [(strL "objects", JVal.arr [c10InfObj]),
     (strL "actions", JVal.arr []),
     (strL "sceneDescription", JVal.str (strL "ok")),
     (strL "relationships", JVal.arr [])]

/-- C10 counterexample: at a decoded payload whose confidence field is the
string `Infinity`, Number() yields Infinity — truthy, so the source's
`Number(x) || 0.5` keeps it and the returned object's confidence is
Infinity, where the claim's rule (nonzero finite number, 0.5 otherwise)
demands 0.5. -/
theorem c10_confidence_counterexample :
    jsonParse (extractAndCleanJson c10InfResp) = some c10InfParsed
    ∧ (parseGeminiResponse 0 c10InfResp).objects
        = [{ name := strL "cup", position := none,
             confidence := NumV.inf true, lastSeenAt := 0 }]
    ∧ claimConfRule (jsToNumberO (jField c10InfObj keyConfidence)) = NumV.fin 0.5
    ∧ NumV.inf true ≠ NumV.fin 0.5 := by
  refine ⟨rfl, rfl, rfl, ?_⟩
  decide

/-- C10 (amended): on every successfully decoded payload, every object
and every action in the returned result carries the confidence
`Number(x) || 0.5` — the Number() view of the input confidence whenever
that is truthy (a nonzero finite value, or an Infinity, which is kept),
and 0.5 exactly when Number() yields NaN or zero; consequently no
returned object or action ever has finite confidence 0, and an explicit
input confidence of 0 is replaced by 0.5. -/
theorem c10_confidence_amended :
    ∀ (t : ℚ) (response : Str) (parsed : JVal) (r : AnalysisResult),
      jsonParse (extractAndCleanJson response) = some parsed →
      interpretParsed t parsed = Except.ok r →
      parseGeminiResponse t response = r
      ∧ List.Forall₂ (fun (o : JVal) (d : DetectedObject) =>
          d.confidence = amendedConfRule (jsToNumberO (jField o keyConfidence)))
          (asArray (jField parsed keyObjects)) r.objects
      ∧ List.Forall₂ (fun (a : JVal) (act : ActionRec) =>
          act.confidence = amendedConfRule (jsToNumberO (jField a keyConfidence)))
          (asArray (jField parsed keyActions)) r.actions
      ∧ (∀ d ∈ r.objects, d.confidence ≠ NumV.fin 0)
      ∧ (∀ act ∈ r.actions, act.confidence ≠ NumV.fin 0) := by
  intro t response parsed r h1 h2
  obtain ⟨hO, hA, _, _⟩ := interpretParsed_ok_parts t parsed r h2
  refine ⟨?_, ?_, ?_, ?_, ?_⟩
  · simp only [parseGeminiResponse, h1, h2]
  · exact List.Forall₂.imp (fun {x y} hxy => validateObject_ok_conf t x y hxy)
      (exMapM_ok_forall₂ _ _ _ hO)
  · exact List.Forall₂.imp (fun {x y} hxy => validateAction_ok_conf t x y hxy)
      (exMapM_ok_forall₂ _ _ _ hA)
  · intro d hd
    obtain ⟨o, ho⟩ := exMapM_ok_mem _ _ _ hO d hd
    rw [validateObject_ok_conf t o d ho]
    exact amendedConfRule_ne_fin_zero _
  · intro act hact
    obtain ⟨a, ha⟩ := exMapM_ok_mem _ _ _ hA act hact
    rw [validateAction_ok_conf t a act ha]
    exact amendedConfRule_ne_fin_zero _

def c10Resp : Str :=
  strL "\x7b\"objects\":[\x7b\"name\":\"cup\",\"confidence\":0\x7d],\"actions\":[],\"sceneDescription\":\"ok\",\"relationships\":[]\x7d"

def c10Parsed : JVal :=
  JVal.obj
    [(strL "objects", JVal.arr
        [JVal.obj [(strL "name", JVal.str (strL "cup")), (strL "confidence", JVal.num 0)]]),
     (strL "actions", JVal.arr []),
     (strL "sceneDescription", JVal.str (strL "ok")),
     (strL "relationships", JVal.arr [])]

def c10Result : AnalysisResult :=
  { objects := [{ name := strL "cup", position := none,
                  confidence := NumV.fin 0.5, lastSeenAt := 0 }]
    actions := []
    sceneDescription := strL "ok"
    relationships := []
    timestamp := 0 }

/-- Witness for C10: an explicit input confidence of 0 comes back as 0.5,
never 0. -/
theorem c10_confidence_amended_witness :
    parseGeminiResponse 0 c10Resp = c10Result
    ∧ (∀ d ∈ c10Result.objects, d.confidence ≠ NumV.fin 0) := by
  have h := c10_confidence_amended 0 c10Resp c10Parsed c10Result rfl rfl
  exact ⟨h.1, h.2.2.2.1⟩

/- ## Claim C7 (corrected) -/

/-- C7 counterexample: a processing cycle whose raw output cannot be
interpreted even after recovery does NOT leave Scene Memory unchanged —
the degraded result is still merged, overwriting the scene description
with `Failed to analyze scene` in place of the previous value. -/
theorem c7_parse_failure_counterexample :
    jsonParse (extractAndCleanJson (strL "not a json payload")) = none
    ∧ sampleCtx.sceneDescription = some (strL "previous scene")
    ∧ ((processFrame sampleCtx frameA (Except.ok (strL "not a json payload")) 5).1).sceneDescription
        = some (strL "Failed to analyze scene")
    ∧ some (strL "Failed to analyze scene") ≠ some (strL "previous scene") := by
  refine ⟨rfl, rfl, rfl, ?_⟩
  decide

/-- C7 (amended): when the inference call itself fails, Scene Memory is
unchanged for that cycle (only the context window advances) and the error
is rethrown; when instead the raw output cannot be interpreted even after
recovery, the degraded result is still merged — no object is added or
refreshed but the TTL sweep runs, no action is appended (the log is
merely re-truncated to its last 10 entries), and the scene description is
overwritten with `Failed to analyze scene`. -/
theorem c7_failed_cycle_merge :
    (∀ (ctx : ProcessingContext) (frame : Frame) (err : Str) (now : ℚ),
      ((processFrame ctx frame (Except.error err) now).1).recentObjects = ctx.recentObjects
      ∧ ((processFrame ctx frame (Except.error err) now).1).recentActions = ctx.recentActions
      ∧ ((processFrame ctx frame (Except.error err) now).1).sceneDescription = ctx.sceneDescription
      ∧ (processFrame ctx frame (Except.error err) now).2 = Except.error err)
    ∧ (∀ (ctx : ProcessingContext) (frame : Frame) (raw : Str) (now : ℚ),
        jsonParse (extractAndCleanJson raw) = none →
        ((processFrame ctx frame (Except.ok raw) now).1).recentObjects
            = ctx.recentObjects.filter (fun o => now - o.lastSeenAt < OBJECT_MEMORY_DURATION)
        ∧ ((processFrame ctx frame (Except.ok raw) now).1).recentActions
            = ctx.recentActions.drop (ctx.recentActions.length - 10)
        ∧ ((processFrame ctx frame (Except.ok raw) now).1).sceneDescription
            = some (strL "Failed to analyze scene")) := by
  constructor
  · intro ctx frame err now
    exact ⟨rfl, rfl, rfl, rfl⟩
  · intro ctx frame raw now h
    have hp : parseGeminiResponse now raw = failedResult now := by
      simp [parseGeminiResponse, h]
    refine ⟨?_, ?_, ?_⟩ <;>
      simp [processFrame, hp, updateContext, failedResult]

/-- Witness for C7: the degraded merge at a late merge time sweeps the
stale object away and overwrites the scene description. -/
theorem c7_failed_cycle_merge_witness :
    ((processFrame sampleCtx frameA (Except.ok (strL "still not json")) 20000).1).recentObjects = []
    ∧ ((processFrame sampleCtx frameA (Except.ok (strL "still not json")) 20000).1).sceneDescription
        = some (strL "Failed to analyze scene") := by
  have h := c7_failed_cycle_merge.2 sampleCtx frameA (strL "still not json") 20000 rfl
  refine ⟨?_, h.2.2⟩
  rw [h.1]
  rfl

/- ## Claim C4: lemmas about updateOne and the merge fold -/

/-- The entry written for `o`, both on overwrite and on insert. -/
def refreshedObj (o : DetectedObject) (now : ℚ) : DetectedObject :=
  { o with lastSeenAt := now }

theorem updateOne_name_mem (objs : List DetectedObject) (o : DetectedObject) (now : ℚ) :
    ∀ x ∈ (updateOne objs o now).map (fun e => e.name),
      x ∈ objs.map (fun e => e.name) ∨ x = o.name := by
  induction objs with
  | nil =>
    intro x hx
    simp [updateOne, refreshedObj] at hx
    exact Or.inr hx
  | cons e rest ih =>
    intro x hx
    by_cases he : e.name = o.name
    · simp only [updateOne, he, if_pos, List.map_cons, List.mem_cons] at hx
      simp only [List.map_cons, List.mem_cons]
      rcases hx with hx | hx
      · exact Or.inr (he ▸ hx)
      · exact Or.inl (Or.inr hx)
    · simp only [updateOne, he, if_neg, not_false_iff, List.map_cons, List.mem_cons] at hx
      simp only [List.map_cons, List.mem_cons]
      rcases hx with hx | hx
      · exact Or.inl (Or.inl hx)
      · rcases ih x hx with h2 | h2
        · exact Or.inl (Or.inr h2)
        · exact Or.inr h2

theorem updateOne_names_nodup (objs : List DetectedObject) (o : DetectedObject) (now : ℚ)
    (h : (objs.map (fun e => e.name)).Nodup) :
    ((updateOne objs o now).map (fun e => e.name)).Nodup := by
  induction objs with
  | nil => simp [updateOne, refreshedObj]
  | cons e rest ih =>
    simp only [List.map_cons, List.nodup_cons] at h
    by_cases he : e.name = o.name
    · simp only [updateOne, he, if_pos, List.map_cons, List.nodup_cons]
      exact ⟨he ▸ h.1, h.2⟩
    · simp only [updateOne, he, if_neg, not_false_iff, List.map_cons, List.nodup_cons]
      refine ⟨?_, ih h.2⟩
      intro hmem
      rcases updateOne_name_mem rest o now e.name hmem with h2 | h2
      · exact h.1 h2
      · exact he h2

theorem updateOne_filter_self (objs : List DetectedObject) (o : DetectedObject) (now : ℚ)
    (h : (objs.map (fun e => e.name)).Nodup) :
    (updateOne objs o now).filter (fun e => e.name == o.name) = [refreshedObj o now] := by
  induction objs with
  | nil => simp [updateOne, refreshedObj]
  | cons e rest ih =>
    simp only [List.map_cons, List.nodup_cons] at h
    by_cases he : e.name = o.name
    · simp only [updateOne, he, if_pos]
      have hrest : rest.filter (fun x => x.name == o.name) = [] := by
        rw [List.filter_eq_nil_iff]
        intro x hx
        simp only [beq_iff_eq]
        intro hxn
        exact h.1 (he ▸ hxn ▸ List.mem_map_of_mem (fun q => q.name) hx)
      rw [List.filter_cons, if_pos (by simp [he]), hrest]
      simp [refreshedObj, he]
    · simp only [updateOne, he, if_neg, not_false_iff]
      rw [List.filter_cons, if_neg (by simp [he])]
      exact ih h.2

theorem updateOne_filter_other (objs : List DetectedObject) (o : DetectedObject) (now : ℚ)
    (n : Str) (hn : n ≠ o.name) :
    (updateOne objs o now).filter (fun e => e.name == n)
      = objs.filter (fun e => e.name == n) := by
  induction objs with
  | nil =>
    simp only [updateOne]
    rw [List.filter_cons, if_neg (by simp [refreshedObj]; exact Ne.symm hn)]
  | cons e rest ih =>
    by_cases he : e.name = o.name
    · simp only [updateOne, he, if_pos]
      rw [List.filter_cons, List.filter_cons,
        if_neg (by simp; exact Ne.symm hn),
        if_neg (by simp [he]; exact Ne.symm hn)]
    · simp only [updateOne, he, if_neg, not_false_iff]
      rw [List.filter_cons, List.filter_cons]
      by_cases hen : e.name = n
      · rw [if_pos (by simp [hen]), if_pos (by simp [hen]), ih]
      · rw [if_neg (by simp [hen]), if_neg (by simp [hen]), ih]

theorem foldl_updateOne_filter_other (l : List DetectedObject) (now : ℚ) :
    ∀ (acc : List DetectedObject) (n : Str), (∀ x ∈ l, x.name ≠ n) →
      (l.foldl (fun acc o => updateOne acc o now) acc).filter (fun e => e.name == n)
        = acc.filter (fun e => e.name == n) := by
  induction l with
  | nil => intro acc n _; rfl
  | cons o rest ih =>
    intro acc n hall
    rw [List.foldl_cons,
      ih (updateOne acc o now) n (fun x hx => hall x (List.mem_cons_of_mem o hx))]
    exact updateOne_filter_other acc o now n (Ne.symm (hall o (List.mem_cons_self o rest)))

theorem foldl_updateOne_nodup (l : List DetectedObject) (now : ℚ) :
    ∀ acc : List DetectedObject, ((acc.map (fun e => e.name)).Nodup) →
      (((l.foldl (fun acc o => updateOne acc o now) acc).map (fun e => e.name)).Nodup) := by
  induction l with
  | nil => intro acc h; exact h
  | cons o rest ih =>
    intro acc h
    rw [List.foldl_cons]
    exact ih (updateOne acc o now) (updateOne_names_nodup acc o now h)

theorem merge_filter_self (objsA : List DetectedObject) (now : ℚ)
    (hA : (objsA.map (fun e => e.name)).Nodup) :
    ∀ acc : List DetectedObject, ((acc.map (fun e => e.name)).Nodup) →
      ∀ o ∈ objsA,
        (objsA.foldl (fun acc o => updateOne acc o now) acc).filter
            (fun e => e.name == o.name) = [refreshedObj o now] := by
  intro acc hacc o ho
  obtain ⟨s, t, hst⟩ := List.append_of_mem ho
  subst hst
  have hsplit : (s ++ o :: t).foldl (fun acc o => updateOne acc o now) acc
      = t.foldl (fun acc o => updateOne acc o now)
          (updateOne (s.foldl (fun acc o => updateOne acc o now) acc) o now) := by
    rw [List.foldl_append, List.foldl_cons]
  rw [hsplit]
  have hmidNodup : (((s.foldl (fun acc o => updateOne acc o now) acc).map
      (fun e => e.name)).Nodup) := foldl_updateOne_nodup s now acc hacc
  have htno : ∀ x ∈ t, x.name ≠ o.name := by
    intro x hx hEq
    have : o.name ∈ t.map (fun e => e.name) := hEq ▸ List.mem_map_of_mem (fun e => e.name) hx
    simp only [List.map_append, List.map_cons, List.nodup_append, List.nodup_cons] at hA
    exact hA.2.1.1 this
  rw [foldl_updateOne_filter_other t now _ o.name htno]
  exact updateOne_filter_self _ o now hmidNodup

/-- C4: merging an AnalysisResult updates Scene Memory as claimed — every
result object ends up as exactly one entry carrying the result's position
and confidence and stamped with the merge time, whether it overwrote an
existing entry of that name or was inserted as new (under the natural
no-duplicate-name hypotheses); after the sweep no surviving object's age
exceeds OBJECT_MEMORY_DURATION; all result actions are appended stamped
with the merge time and the log is truncated to the last 10 entries,
discarding oldest first, so its length never exceeds 10; and the scene
description is overwritten unconditionally. -/
theorem c4_scene_memory_merge :
    ∀ (ctx : ProcessingContext) (analysis : AnalysisResult) (now : ℚ),
      ((analysis.objects.map (fun e => e.name)).Nodup →
        (ctx.recentObjects.map (fun e => e.name)).Nodup →
        ∀ o ∈ analysis.objects,
          ((updateContext ctx analysis now).recentObjects).filter
              (fun e => e.name == o.name)
            = [{ o with lastSeenAt := now }])
      ∧ (∀ e ∈ (updateContext ctx analysis now).recentObjects,
          now - e.lastSeenAt ≤ OBJECT_MEMORY_DURATION)
      ∧ (updateContext ctx analysis now).recentActions
          = (ctx.recentActions
              ++ analysis.actions.map (fun a : ActionRec => { a with timestamp := now })).drop
              (ctx.recentActions.length + analysis.actions.length - 10)
      ∧ ((updateContext ctx analysis now).recentActions).length ≤ 10
      ∧ (updateContext ctx analysis now).sceneDescription = some analysis.sceneDescription := by
  intro ctx analysis now
  refine ⟨?_, ?_, ?_, ?_, ?_⟩
  · intro hA hM o ho
    show ((analysis.objects.foldl (fun acc o => updateOne acc o now)
        ctx.recentObjects).filter
        (fun o => decide (now - o.lastSeenAt < OBJECT_MEMORY_DURATION))).filter
        (fun e => e.name == o.name) = _
    rw [List.filter_comm]
    rw [merge_filter_self analysis.objects now hA ctx.recentObjects hM o ho]
    rw [List.filter_cons]
    rw [if_pos (by simp [refreshedObj, OBJECT_MEMORY_DURATION])]
    rfl
  · intro e he
    simp only [updateContext] at he
    rw [List.mem_filter] at he
    exact le_of_lt (of_decide_eq_true he.2)
  · show (ctx.recentActions
        ++ analysis.actions.map (fun a : ActionRec => { a with timestamp := now })).drop
        ((ctx.recentActions
          ++ analysis.actions.map (fun a : ActionRec => { a with timestamp := now })).length - 10)
        = _
    congr 1
    simp [List.length_append, List.length_map]
  · show ((ctx.recentActions
        ++ analysis.actions.map (fun a : ActionRec => { a with timestamp := now })).drop
        ((ctx.recentActions
          ++ analysis.actions.map (fun a : ActionRec => { a with timestamp := now })).length - 10)).length
        ≤ 10
    simp only [List.length_drop]
    omega
  · rfl

def c4Analysis : AnalysisResult :=
  { objects := [{ name := strL "cup", position := none, confidence := NumV.fin 0.7, lastSeenAt := 99 },
                { name := strL "book", position := none, confidence := NumV.fin 0.6, lastSeenAt := 99 }]
    actions := [{ description := strL "moved", objects := [strL "cup"],
                  confidence := NumV.fin 0.8, timestamp := 99 }]
    sceneDescription := strL "table"
    relationships := []
    timestamp := 99 }

/-- Witness for C4: merging at time 5 a result that repeats the name
`cup` leaves exactly one `cup` entry, carrying the new confidence and the
merge time. -/
theorem c4_scene_memory_merge_witness :
    ((updateContext sampleCtx c4Analysis 5).recentObjects).filter
        (fun e => e.name == strL "cup")
      = [{ name := strL "cup", position := none, confidence := NumV.fin 0.7, lastSeenAt := 5 }] :=
  (c4_scene_memory_merge sampleCtx c4Analysis 5).1 (by decide) (by decide)
    { name := strL "cup", position := none, confidence := NumV.fin 0.7, lastSeenAt := 99 }
    (List.mem_cons_self _ _)

/- ## Claim C6: the rate limiter -/

/-- Successive elements at least `i` apart, the first at least `i` above
`l`. -/
def Spaced (i : ℚ) : ℚ → List ℚ → Prop
  | _, [] => True
  | l, x :: xs => l + i ≤ x ∧ Spaced i x xs

theorem runRL_spaced (i : ℚ) : ∀ (ts : List ℚ) (last : ℚ),
    Spaced i last (runRL i last ts) := by
  intro ts
  induction ts with
  | nil => intro last; trivial
  | cons t ts ih =>
    intro last
    by_cases h : i ≤ t - last
    · rw [runRL, if_pos h]
      exact ⟨by linarith, ih t⟩
    · rw [runRL, if_neg h]
      exact ih last

theorem runRL_subset (i : ℚ) : ∀ (ts : List ℚ) (last : ℚ),
    runRL i last ts ⊆ ts := by
  intro ts
  induction ts with
  | nil => intro last; exact List.Subset.refl _
  | cons t ts ih =>
    intro last
    by_cases h : i ≤ t - last
    · rw [runRL, if_pos h]
      exact List.cons_subset_cons t (ih t)
    · rw [runRL, if_neg h]
      exact List.Subset.trans (ih last) (List.subset_cons_self t ts)

theorem spaced_length_bound (i B : ℚ) : ∀ (xs : List ℚ) (l : ℚ),
    Spaced i l xs → (∀ x ∈ xs, x ≤ B) →
    xs = [] ∨ (xs.length : ℚ) * i + l ≤ B := by
  intro xs
  induction xs with
  | nil => intro l _ _; exact Or.inl rfl
  | cons a rest ih =>
    intro l hs hb
    refine Or.inr ?_
    obtain ⟨h1, h2⟩ := hs
    have ha : a ≤ B := hb a (List.mem_cons_self a rest)
    rcases ih a h2 (fun x hx => hb x (List.mem_cons_of_mem a hx)) with hnil | hbound
    · subst hnil
      simp only [List.length_cons, List.length_nil]
      push_cast
      linarith
    · simp only [List.length_cons]
      push_cast
      linarith

/-- C6: the limiter accepts a sample iff the time since the last accepted
sample is at least 1000/targetFps, advancing its state exactly on
acceptance and dropping rejected samples with no state change (the
one-step unfolding equation); over any window of width E it accepts at
most ceil(E / interval) + 1 samples; and pushing three samples 10 ms
apart with targetFps = 2 — the limiter being ready to accept the first —
accepts only the first. -/
theorem c6_rate_limiter :
    (∀ (interval last t : ℚ) (ts : List ℚ),
      runRL interval last (t :: ts)
        = if interval ≤ t - last then t :: runRL interval t ts
          else runRL interval last ts)
    ∧ (∀ (fps last A E : ℚ) (ts : List ℚ), 0 < fps → 0 ≤ E →
        (∀ t ∈ ts, A ≤ t ∧ t ≤ A + E) →
        ((runRL (frameInterval fps) last ts).length : ℤ) ≤ ⌈E / frameInterval fps⌉ + 1)
    ∧ (∀ last t : ℚ, frameInterval 2 ≤ t - last →
        runRL (frameInterval 2) last [t, t + 10, t + 20] = [t]) := by
  refine ⟨fun interval last t ts => rfl, ?_, ?_⟩
  · intro fps last A E ts hfps hE hwin
    set i := frameInterval fps with hi
    have hipos : 0 < i := by
      rw [hi, frameInterval]
      positivity
    have hceil0 : (0 : ℤ) ≤ ⌈E / i⌉ := by
      refine Int.ceil_nonneg ?_
      positivity
    cases hacc : runRL i last ts with
    | nil => simp [hacc]; omega
    | cons a rest =>
      have hsp : Spaced i last (runRL i last ts) := runRL_spaced i ts last
      rw [hacc] at hsp
      have hsub : (a :: rest) ⊆ ts := hacc ▸ runRL_subset i ts last
      have hsp2 : Spaced i (A - i) (a :: rest) := by
        refine ⟨?_, hsp.2⟩
        have haA : A ≤ a := (hwin a (hsub (List.mem_cons_self a rest))).1
        linarith
      have hub : ∀ x ∈ (a :: rest), x ≤ A + E := fun x hx => (hwin x (hsub hx)).2
      rcases spaced_length_bound i (A + E) (a :: rest) (A - i) hsp2 hub with hnil | hbound
      · cases hnil
      · have hlen : (((a :: rest).length : ℚ)) * i ≤ E + i := by linarith
        have hdiv : ((a :: rest).length : ℚ) - 1 ≤ E / i := by
          rw [le_div_iff₀ hipos]
          have : (((a :: rest).length : ℚ) - 1) * i = ((a :: rest).length : ℚ) * i - i := by ring
          linarith [this]
        have hceil : ((a :: rest).length : ℚ) - 1 ≤ (⌈E / i⌉ : ℚ) :=
          le_trans hdiv (Int.le_ceil _)
        have : ((a :: rest).length : ℤ) - 1 ≤ ⌈E / i⌉ := by
          exact_mod_cast hceil
        omega
  · intro last t h
    have h10 : ¬ (frameInterval 2 ≤ t + 10 - t) := by
      rw [frameInterval]
      norm_num
    have h20 : ¬ (frameInterval 2 ≤ t + 20 - t) := by
      rw [frameInterval]
      norm_num
    rw [runRL, if_pos h, runRL, if_neg h10, runRL, if_neg h20, runRL]

/-- Witness for C6: from a ready limiter, samples at 1000, 1010 and 1020
ms with targetFps 2 yield exactly one accepted sample. -/
theorem c6_rate_limiter_witness :
    runRL (frameInterval 2) 0 [1000, 1000 + 10, 1000 + 20] = [1000] :=
  c6_rate_limiter.2.2 0 1000 (by rw [frameInterval]; norm_num)

/- ## Claim C3: the worker loop -/

theorem qreach_inv : ∀ s : QState, QReach s →
    s.workers.length ≤ 1 ∧ (s.processing = true ↔ s.workers ≠ []) := by
  intro s h
  induction h with
  | init => constructor <;> simp [initState]
  | step s l s2 hr hstep ih =>
    cases hstep with
    | enqueueIdle i qh qt hproc henq =>
      have hw : s.workers = [] := by
        by_contra hne
        have h2 := ih.2.mpr hne
        rw [hproc] at h2
        exact Bool.noConfusion h2
      constructor
      · simp [hw]
      · simp [hw]
    | enqueueBusy i hproc =>
      exact ⟨ih.1, iff_of_true rfl (ih.2.mp hproc)⟩
    | complete ok w1 w2 it hw =>
      constructor
      · have := ih.1
        rw [hw] at this
        simpa using this
      · have hne : s.workers ≠ [] := by
          rw [hw]
          simp
        refine iff_of_true ?_ ?_
        · exact ih.2.mpr hne
        · simp
    | wakeEmpty w1 w2 t0 hw hq hnow =>
      have hlen := ih.1
      rw [hw] at hlen
      simp only [List.length_append, List.length_cons] at hlen
      have hw1 : w1 = [] := List.eq_nil_of_length_eq_zero (by omega)
      have hw2 : w2 = [] := List.eq_nil_of_length_eq_zero (by omega)
      constructor
      · simp [hw1, hw2]
      · simp [hw1, hw2]
    | wakeNext w1 w2 t0 qh qt hw hq hnow =>
      constructor
      · have := ih.1
        rw [hw] at this
        simpa using this
      · refine iff_of_true rfl ?_
        simp
    | tick d hd =>
      exact ih

/-- C3: in every reachable state of the worker-loop transition system at
most one inference call is in flight; after an item fails, the loop still
proceeds — the failing completion, the fixed 500 ms delay, and the wake
step dequeue the next queued item; and a wake step can fire only once at
least 500 ms have passed since the completion that started the delay. -/
theorem c3_single_inflight_loop :
    (∀ s : QState, QReach s → numInflight s ≤ 1)
    ∧ (∀ (s : QState) (it qh : Frame) (qt : List Frame),
        QReach s → s.workers = [WPhase.inflight it] → s.queue = qh :: qt →
        ∃ s1 s2 s3 : QState,
          QStep s (QLabel.complete false) s1
          ∧ QStep s1 (QLabel.tick processDelay) s2
          ∧ QStep s2 QLabel.wake s3
          ∧ s3.workers = [WPhase.inflight qh] ∧ s3.queue = qt ∧ s3.processing = true)
    ∧ (∀ (s s2 : QState) (t0 : ℚ),
        QStep s QLabel.wake s2 → s.workers = [WPhase.delaying t0] →
        s.now ≥ t0 + processDelay) := by
  refine ⟨?_, ?_, ?_⟩
  · intro s h
    have := (qreach_inv s h).1
    calc numInflight s ≤ s.workers.length := List.length_filter_le _ _
    _ ≤ 1 := this
  · intro s it qh qt _ hw hq
    refine ⟨⟨s.queue, s.processing, [WPhase.delaying s.now], s.now⟩,
            ⟨s.queue, s.processing, [WPhase.delaying s.now], s.now + processDelay⟩,
            ⟨qt, true, [WPhase.inflight qh], s.now + processDelay⟩,
            ?_, ?_, ?_, rfl, rfl, rfl⟩
    · exact QStep.complete s false [] [] it hw
    · exact QStep.tick _ processDelay (by norm_num [processDelay])
    · exact QStep.wakeNext _ [] [] s.now qh qt rfl hq (le_refl _)
  · intro s s2 t0 hstep hw
    cases hstep with
    | wakeEmpty w1 w2 t1 hw2 hq hnow =>
      rw [hw] at hw2
      cases w1 with
      | nil =>
        simp only [List.nil_append, List.cons.injEq] at hw2
        have : t0 = t1 := by
          injection hw2.1
        rw [this]
        exact hnow
      | cons x xs =>
        simp at hw2
    | wakeNext w1 w2 t1 qh qt hw2 hq hnow =>
      rw [hw] at hw2
      cases w1 with
      | nil =>
        simp only [List.nil_append, List.cons.injEq] at hw2
        have : t0 = t1 := by
          injection hw2.1
        rw [this]
        exact hnow
      | cons x xs =>
        simp at hw2

def qWit1 : QState := ⟨[], true, [WPhase.inflight frameA], 0⟩

def qWit2 : QState := ⟨[frameB], true, [WPhase.inflight frameA], 0⟩

theorem qWit2_reach : QReach qWit2 :=
  QReach.step qWit1 (QLabel.enqueue frameB) qWit2
    (QReach.step initState (QLabel.enqueue frameA) qWit1 QReach.init
      (QStep.enqueueIdle initState frameA frameA [] rfl rfl))
    (QStep.enqueueBusy qWit1 frameB rfl)

/-- Witness for C3 at a reachable state with one inference in flight and
one queued item. -/
theorem c3_single_inflight_loop_witness :
    numInflight qWit2 ≤ 1
    ∧ ∃ s1 s2 s3 : QState,
        QStep qWit2 (QLabel.complete false) s1
        ∧ QStep s1 (QLabel.tick processDelay) s2
        ∧ QStep s2 QLabel.wake s3
        ∧ s3.workers = [WPhase.inflight frameB] ∧ s3.queue = [] ∧ s3.processing = true :=
  ⟨c3_single_inflight_loop.1 qWit2 qWit2_reach,
   c3_single_inflight_loop.2.1 qWit2 frameA frameB [] qWit2_reach rfl rfl⟩

/- ## Claim C9: round trip on schema-matching payloads -/

theorem matchArr_true {P : List JVal → Bool} {v : Option JVal}
    (h : (match v with | some (JVal.arr os) => P os | _ => false) = true) :
    ∃ os, v = some (JVal.arr os) ∧ P os = true := by
  cases v with
  | none => exact absurd h (by simp)
  | some x =>
    cases x with
    | arr os => exact ⟨os, rfl, h⟩
    | null => exact absurd h (by simp)
    | bool b => exact absurd h (by simp)
    | num q => exact absurd h (by simp)
    | str s => exact absurd h (by simp)
    | obj fs => exact absurd h (by simp)
    | infin b => exact absurd h (by simp)

theorem isStrField_true {v : Option JVal} (h : isStrField v = true) :
    ∃ s, v = some (JVal.str s) := by
  cases v with
  | none => exact absurd h (by simp [isStrField])
  | some x =>
    cases x with
    | str s => exact ⟨s, rfl⟩
    | null => exact absurd h (by simp [isStrField])
    | bool b => exact absurd h (by simp [isStrField])
    | num q => exact absurd h (by simp [isStrField])
    | arr os => exact absurd h (by simp [isStrField])
    | obj fs => exact absurd h (by simp [isStrField])
    | infin b => exact absurd h (by simp [isStrField])

theorem strWithDefault_of_nonempty (v : Option JVal) (dflt : Str)
    (h : isNonemptyStrField v = true) : strWithDefault v dflt = strOf v := by
  cases v with
  | none => simp [isNonemptyStrField] at h
  | some x =>
    cases x with
    | str s =>
      simp only [isNonemptyStrField] at h
      simp [strWithDefault, jsTruthy, h, jsToString, strOf]
    | null => simp [isNonemptyStrField] at h
    | bool b => simp [isNonemptyStrField] at h
    | num q => simp [isNonemptyStrField] at h
    | arr os => simp [isNonemptyStrField] at h
    | obj fs => simp [isNonemptyStrField] at h
    | infin b => simp [isNonemptyStrField] at h

theorem conf_of_nonzero (v : Option JVal) (h : isNonzeroNumField v = true) :
    (match jsToNumberO v with
     | NumV.fin q => if q = 0 then NumV.fin 0.5 else NumV.fin q
     | NumV.nan => NumV.fin 0.5
     | NumV.inf b => NumV.inf b) = numOf v := by
  cases v with
  | none => simp [isNonzeroNumField] at h
  | some x =>
    cases x with
    | num q =>
      simp only [isNonzeroNumField, decide_eq_true_eq] at h
      simp [jsToNumberO, jsToNumber, numOf, h]
    | null => simp [isNonzeroNumField] at h
    | bool b => simp [isNonzeroNumField] at h
    | str s => simp [isNonzeroNumField] at h
    | arr os => simp [isNonzeroNumField] at h
    | obj fs => simp [isNonzeroNumField] at h
    | infin b => simp [isNonzeroNumField] at h

theorem pos_of_schema (v : Option JVal) :
    (match v with | none => true | some p => jsTruthy p) = true →
    (match v with
     | some p => if jsTruthy p then some p else none
     | none => none) = v := by
  cases v with
  | none => intro _; rfl
  | some p =>
    intro h
    simp only at h
    simp [h]

theorem exMapM_congr_ok {α β : Type} (f : α → Except Unit β) (g : α → β) :
    ∀ xs : List α, (∀ x ∈ xs, f x = Except.ok (g x)) →
      exMapM f xs = Except.ok (xs.map g) := by
  intro xs
  induction xs with
  | nil => intro _; rfl
  | cons x rest ih =>
    intro h
    simp only [exMapM, h x (List.mem_cons_self x rest),
      ih (fun y hy => h y (List.mem_cons_of_mem x hy)), List.map_cons]

theorem validateObject_schema (t : ℚ) (o : JVal) (h : schemaGoodObj o = true) :
    validateObject t o = Except.ok (specObjOf t o) := by
  simp only [schemaGoodObj, Bool.and_eq_true] at h
  obtain ⟨⟨⟨hobj, hname⟩, hconf⟩, hpos⟩ := h
  cases o with
  | obj fs =>
    show Except.ok _ = Except.ok _
    refine congrArg Except.ok ?_
    show DetectedObject.mk _ _ _ _ = DetectedObject.mk _ _ _ _
    congr 1
    · exact strWithDefault_of_nonempty _ _ hname
    · exact pos_of_schema _ hpos
    · exact conf_of_nonzero _ hconf
  | null => simp [isObjB] at hobj
  | bool b => simp [isObjB] at hobj
  | num q => simp [isObjB] at hobj
  | str s => simp [isObjB] at hobj
  | arr xs => simp [isObjB] at hobj
  | infin b => simp [isObjB] at hobj

theorem validateAction_schema (t : ℚ) (a : JVal) (h : schemaGoodAct a = true) :
    validateAction t a = Except.ok (specActOf t a) := by
  simp only [schemaGoodAct, Bool.and_eq_true] at h
  obtain ⟨⟨⟨hobj, hdesc⟩, hconf⟩, hobjs⟩ := h
  cases a with
  | obj fs =>
    obtain ⟨xs, hxs, hall⟩ := matchArr_true hobjs
    show Except.ok _ = Except.ok _
    refine congrArg Except.ok ?_
    show ActionRec.mk _ _ _ _ = ActionRec.mk _ _ _ _
    congr 1
    · exact strWithDefault_of_nonempty _ _ hdesc
    · rw [hxs]
      simp only [asArray]
      refine List.map_congr_left ?_
      intro x hx
      have hsx := List.all_eq_true.mp hall x hx
      cases x with
      | str s => rfl
      | null => simp [isStrVal] at hsx
      | bool b => simp [isStrVal] at hsx
      | num q => simp [isStrVal] at hsx
      | arr os => simp [isStrVal] at hsx
      | obj fs2 => simp [isStrVal] at hsx
      | infin b => simp [isStrVal] at hsx
    · exact conf_of_nonzero _ hconf
  | null => simp [isObjB] at hobj
  | bool b => simp [isObjB] at hobj
  | num q => simp [isObjB] at hobj
  | str s => simp [isObjB] at hobj
  | arr xs => simp [isObjB] at hobj
  | infin b => simp [isObjB] at hobj

theorem validateRel_schema (r : JVal) (h : schemaGoodRel r = true) :
    validateRel r = Except.ok (specRelOf r) := by
  simp only [schemaGoodRel, Bool.and_eq_true] at h
  obtain ⟨⟨⟨hobj, h1⟩, h2⟩, h3⟩ := h
  cases r with
  | obj fs =>
    show Except.ok _ = Except.ok _
    refine congrArg Except.ok ?_
    show Relationship.mk _ _ _ = Relationship.mk _ _ _
    congr 1
    · exact strWithDefault_of_nonempty _ _ h1
    · exact strWithDefault_of_nonempty _ _ h2
    · exact strWithDefault_of_nonempty _ _ h3
  | null => simp [isObjB] at hobj
  | bool b => simp [isObjB] at hobj
  | num q => simp [isObjB] at hobj
  | str s => simp [isObjB] at hobj
  | arr xs => simp [isObjB] at hobj
  | infin b => simp [isObjB] at hobj

theorem interpretParsed_schema (t : ℚ) (v : JVal) (h : schemaGood v = true) :
    interpretParsed t v = Except.ok (resultOfSchema v t) := by
  simp only [schemaGood, Bool.and_eq_true] at h
  obtain ⟨⟨⟨⟨hobj, hos⟩, has⟩, hdesc⟩, hrs⟩ := h
  cases v with
  | obj fs =>
    obtain ⟨os, hO, hosP⟩ := matchArr_true hos
    obtain ⟨acts, hA, hactsP⟩ := matchArr_true has
    obtain ⟨rs, hR, hrsP⟩ := matchArr_true hrs
    obtain ⟨d, hD⟩ := isStrField_true hdesc
    have hmO : exMapM (validateObject t) os = Except.ok (os.map (specObjOf t)) :=
      exMapM_congr_ok _ _ os
        (fun o ho => validateObject_schema t o (List.all_eq_true.mp hosP o ho))
    have hmA : exMapM (validateAction t) acts = Except.ok (acts.map (specActOf t)) :=
      exMapM_congr_ok _ _ acts
        (fun a ha => validateAction_schema t a (List.all_eq_true.mp hactsP a ha))
    have hmR : exMapM validateRel rs = Except.ok (rs.map specRelOf) :=
      exMapM_congr_ok _ _ rs
        (fun r hr => validateRel_schema r (List.all_eq_true.mp hrsP r hr))
    simp only [interpretParsed, jsGetField, resultOfSchema, hO, hA, hD, hR,
      asArray, hmO, hmA, hmR, strOf]
  | null => simp [isObjB] at hobj
  | bool b => simp [isObjB] at hobj
  | num q => simp [isObjB] at hobj
  | str s => simp [isObjB] at hobj
  | arr xs => simp [isObjB] at hobj
  | infin b => simp [isObjB] at hobj

def cupResp : Str :=
  strL "```json\n\x7b\"objects\":[\x7b\"name\":\"cup\",\"confidence\":0.9\x7d],\"actions\":[],\"sceneDescription\":\"a cup on a table\",\"relationships\":[]\x7d\n```"

def c9CexResp : Str :=
  strL "\x7b\"objects\":[],\"actions\":[],\"sceneDescription\":\"undefined\",\"relationships\":[]\x7d"

def c9CexParsed : JVal :=
  JVal.obj
    [(strL "objects", JVal.arr []),
     (strL "actions", JVal.arr []),
     (strL "sceneDescription", JVal.str (strL "undefined")),
     (strL "relationships", JVal.arr [])]

/-- C9 counterexample: a well-formed JSON string matching the schema is
NOT round-tripped unchanged — the recovery transform that rewrites the
literal `undefined` also rewrites it inside string values, so a scene
description of `undefined` comes back as `null`. -/
theorem c9_roundtrip_counterexample :
    jsonParse c9CexResp = some c9CexParsed
    ∧ schemaGood c9CexParsed = true
    ∧ jField c9CexParsed keySceneDescription = some (JVal.str (strL "undefined"))
    ∧ (parseGeminiResponse 0 c9CexResp).sceneDescription = strL "null"
    ∧ strL "null" ≠ strL "undefined" := by
  refine ⟨rfl, rfl, rfl, rfl, ?_⟩
  decide

/-- C9 (amended): for every well-formed JSON string matching the
AnalysisResult schema whose text the recovery transforms leave unchanged
(in particular no string content containing `undefined` or other
artifacts the cleaning rewrites), parse round-trips all fields unchanged
apart from the added timestamps; the fenced cup example yields exactly
one object named `cup` with confidence 0.9 and position undefined; a
missing confidence defaults to 0.5 and a missing name defaults to the
`Unknown Object` placeholder. -/
theorem c9_roundtrip_amended :
    (∀ (s : Str) (v : JVal) (t : ℚ),
      extractAndCleanJson s = s →
      jsonParse s = some v →
      schemaGood v = true →
      parseGeminiResponse t s = resultOfSchema v t)
    ∧ (∀ t : ℚ, parseGeminiResponse t cupResp =
        { objects := [{ name := strL "cup", position := none, confidence := NumV.fin 0.9, lastSeenAt := t }]
          actions := []
          sceneDescription := strL "a cup on a table"
          relationships := []
          timestamp := t })
    ∧ (∀ (t : ℚ) (o : JVal), o ≠ JVal.null → jField o keyConfidence = none →
        ∃ d, validateObject t o = Except.ok d ∧ d.confidence = NumV.fin 0.5)
    ∧ (∀ (t : ℚ) (o : JVal), o ≠ JVal.null → jField o keyName = none →
        ∃ d, validateObject t o = Except.ok d ∧ d.name = strL "Unknown Object") := by
  refine ⟨?_, ?_, ?_, ?_⟩
  · intro s v t hclean hparse hgood
    simp only [parseGeminiResponse, hclean, hparse, interpretParsed_schema t v hgood]
  · intro t
    rfl
  · intro t o hnn hf
    have key : ∀ d, validateObject t o = Except.ok d → d.confidence = NumV.fin 0.5 := by
      intro d hd
      rw [validateObject_ok_conf t o d hd, hf]
      rfl
    cases o with
    | null => exact absurd rfl hnn
    | bool b => exact ⟨_, rfl, key _ rfl⟩
    | num q => exact ⟨_, rfl, key _ rfl⟩
    | str s => exact ⟨_, rfl, key _ rfl⟩
    | arr xs => exact ⟨_, rfl, key _ rfl⟩
    | obj fs => exact ⟨_, rfl, key _ rfl⟩
    | infin b => exact ⟨_, rfl, key _ rfl⟩
  · intro t o hnn hf
    cases o with
    | null => exact absurd rfl hnn
    | bool b =>
      refine ⟨_, rfl, ?_⟩
      show strWithDefault (jField (JVal.bool b) keyName) (strL "Unknown Object") = _
      rw [hf]
      rfl
    | num q =>
      refine ⟨_, rfl, ?_⟩
      show strWithDefault (jField (JVal.num q) keyName) (strL "Unknown Object") = _
      rw [hf]
      rfl
    | str s =>
      refine ⟨_, rfl, ?_⟩
      show strWithDefault (jField (JVal.str s) keyName) (strL "Unknown Object") = _
      rw [hf]
      rfl
    | arr xs =>
      refine ⟨_, rfl, ?_⟩
      show strWithDefault (jField (JVal.arr xs) keyName) (strL "Unknown Object") = _
      rw [hf]
      rfl
    | obj fs =>
      refine ⟨_, rfl, ?_⟩
      show strWithDefault (jField (JVal.obj fs) keyName) (strL "Unknown Object") = _
      rw [hf]
      rfl
    | infin b =>
      refine ⟨_, rfl, ?_⟩
      show strWithDefault (jField (JVal.infin b) keyName) (strL "Unknown Object") = _
      rw [hf]
      rfl

def c9WitResp : Str :=
  strL "\x7b\"objects\":[],\"actions\":[],\"sceneDescription\":\"a room\",\"relationships\":[]\x7d"

def c9WitParsed : JVal :=
  JVal.obj
    [(strL "objects", JVal.arr []),
     (strL "actions", JVal.arr []),
     (strL "sceneDescription", JVal.str (strL "a room")),
     (strL "relationships", JVal.arr [])]

/-- Witness for C9 at a concrete schema-matching payload untouched by the
recovery transforms. -/
theorem c9_roundtrip_amended_witness :
    parseGeminiResponse 2 c9WitResp = resultOfSchema c9WitParsed 2 :=
  c9_roundtrip_amended.1 c9WitResp c9WitParsed 2 rfl rfl rfl
